import Mathlib

/-! Shallow embedding of the AutoAccessoriesPOS credit ledger and payment
allocation engine: the two payment entry points in
`src/backend/api/customer_payments.py` and
`src/backend/api/credit_management.py`, the balance reconciliation endpoint,
and the cursor-scoped transaction of `src/backend/core/database.py`.

Monetary values are embedded as exact rationals; Python's `round(x, 2)` is
embedded as rounding `x * 100` to the nearest integer (`round2`).  Timestamp
and identity metadata columns (`updated_at`, `created_at` of payments,
`received_by`, `notes`, `payment_date`) carry no ledger state and are
omitted; sale `created_at` is kept as a natural-number timestamp because the
general allocation order depends on it.  SQL result order is modelled as
table (rowid) order, with `ORDER BY` embedded as a stable insertion sort on
the queried key. -/

namespace POS

/-- Monetary amounts, embedded as exact rationals. -/
abbrev Money := ℚ

/-- Embedding of Python's `round(x, 2)`: round to a whole number of
hundredths. -/
def round2 (q : Money) : Money := ((round (q * 100) : ℤ) : ℚ) / 100

/-- The value `q` is an exact two-decimal (whole-cent) amount. -/
def is2dp (q : Money) : Prop := (q * 100).den = 1

instance : DecidablePred is2dp := fun q =>
  inferInstanceAs (Decidable ((q * 100).den = 1))

/-- The `payment_status` column of `sales`.  The source string `'partial'`
is embedded as the constructor `partPaid`. -/
inductive PayStatus
  | pending
  | partPaid
  | paid
  | cancelled
deriving DecidableEq

/-- One row of the `sales` (invoice) table, restricted to the columns the
payment engine reads or writes. -/
structure SaleRow where
  id : ℕ
  customer_id : Option ℕ
  grand_total : Money
  balance_due : Money
  payment_status : PayStatus
  created_at : ℕ
deriving DecidableEq

/-- One row of the `customers` table (ledger-relevant columns only). -/
structure CustomerRow where
  id : ℕ
  current_balance : Money
deriving DecidableEq

/-- One row of the `customer_payments` table (ledger-relevant columns). -/
structure PaymentRow where
  customer_id : ℕ
  amount : Money
  payment_type : String
deriving DecidableEq

/-- One row of the `sale_payments` allocation audit table. -/
structure AllocationRow where
  sale_id : ℕ
  customer_payment_id : ℕ
  amount : Money
deriving DecidableEq

/-- The database state visible to the payment engine.
`has_sale_payments_table` embeds the `sqlite_master` existence probe for
`sale_payments`. -/
structure DB where
  customers : List CustomerRow
  sales : List SaleRow
  customer_payments : List PaymentRow
  sale_payments : List AllocationRow
  has_sale_payments_table : Bool
deriving DecidableEq

/-- An HTTP-level error (`HTTPException(status_code, detail)`).  Details are
embedded as the constant part of the source's message strings. -/
inductive ApiError
  | http (status : ℕ) (detail : String)
deriving DecidableEq

/-- One entry of the `updated_sales` list returned by every payment path. -/
structure UpdatedSale where
  sale_id : ℕ
  amount_applied : Money
  new_balance : Money
  new_status : PayStatus
deriving DecidableEq

/-- The response of a payment request: the customer's new balance, ids of
sales that became fully paid, the per-sale application records and the
generated payment id. -/
structure PaymentResult where
  new_balance : Money
  paid_sales : List ℕ
  updated_sales : List UpdatedSale
  payment_id : ℕ
deriving DecidableEq

/-- Embedding of `sale.get('balance_due', 0) or sale.get('grand_total', 0)`:
a falsy (zero or NULL) `balance_due` falls back to `grand_total`. -/
def saleBalance (s : SaleRow) : Money :=
  if s.balance_due = 0 then s.grand_total else s.balance_due

/-- A sale with `payment_status IN ('pending', 'partial')`. -/
def isOutstanding (s : SaleRow) : Bool :=
  s.payment_status == .pending || s.payment_status == .partPaid

/-- Embedding of `UPDATE sales SET balance_due = ?, payment_status = ?
WHERE id = ?`. -/
def updateSaleRow (sales : List SaleRow) (sid : ℕ) (nb : Money)
    (st : PayStatus) : List SaleRow :=
  sales.map fun s =>
    if s.id = sid then { s with balance_due := nb, payment_status := st } else s

/-- Embedding of `UPDATE customers SET current_balance = ? WHERE id = ?`. -/
def updateCustomerBalance (custs : List CustomerRow) (cid : ℕ)
    (nb : Money) : List CustomerRow :=
  custs.map fun c => if c.id = cid then { c with current_balance := nb } else c

/-- Embedding of `SELECT id, current_balance FROM customers WHERE id = ?`. -/
def findCustomer (db : DB) (cid : ℕ) : Option CustomerRow :=
  db.customers.find? fun c => c.id == cid

/-- State threaded through an allocation walk: the evolving `sales` table,
the remaining payment, and the `paid_sales` / `updated_sales` accumulators. -/
structure WalkResult where
  sales : List SaleRow
  remaining : Money
  paid_sales : List ℕ
  updated_sales : List UpdatedSale
deriving DecidableEq

/-- The oldest-first allocation loop of `_process_general_payment`
(`customer_payments.py`): note the `round(sale_balance - amount_to_apply, 2)`
on each new invoice balance. -/
def cpGeneralLoop : Money → List SaleRow → List SaleRow → WalkResult
  | remaining, [], sales => ⟨sales, remaining, [], []⟩
  | remaining, sale :: rest, sales =>
    if remaining ≤ 0 then ⟨sales, remaining, [], []⟩
    else
      let saleBal := saleBalance sale
      let amountToApply := min remaining saleBal
      let newBalance := round2 (saleBal - amountToApply)
      let newStatus := if newBalance ≤ 0 then PayStatus.paid else PayStatus.partPaid
      let sales' := updateSaleRow sales sale.id newBalance newStatus
      let w := cpGeneralLoop (remaining - amountToApply) rest sales'
      ⟨w.sales, w.remaining,
       (if newStatus = PayStatus.paid then [sale.id] else []) ++ w.paid_sales,
       ⟨sale.id, amountToApply, newBalance, newStatus⟩ :: w.updated_sales⟩

/-- The allocation loop shared verbatim by `_process_general_credit_payment`
and `_process_payment_for_specific_sales` (`credit_management.py`): the new
invoice balance is the exact difference, with no rounding. -/
def cmApplyLoop : Money → List SaleRow → List SaleRow → WalkResult
  | remaining, [], sales => ⟨sales, remaining, [], []⟩
  | remaining, sale :: rest, sales =>
    if remaining ≤ 0 then ⟨sales, remaining, [], []⟩
    else
      let saleBal := saleBalance sale
      let amountToApply := min remaining saleBal
      let newBalance := saleBal - amountToApply
      let newStatus := if newBalance ≤ 0 then PayStatus.paid else PayStatus.partPaid
      let sales' := updateSaleRow sales sale.id newBalance newStatus
      let w := cmApplyLoop (remaining - amountToApply) rest sales'
      ⟨w.sales, w.remaining,
       (if newStatus = PayStatus.paid then [sale.id] else []) ++ w.paid_sales,
       ⟨sale.id, amountToApply, newBalance, newStatus⟩ :: w.updated_sales⟩

/-- The settlement loop of `_process_specific_sales_payment`
(`customer_payments.py`): every selected sale is set to balance 0, status
`paid`, with `amount_applied` equal to its whole outstanding balance. -/
def cpSettleLoop : List SaleRow → List SaleRow → List SaleRow × List UpdatedSale
  | [], sales => (sales, [])
  | sale :: rest, sales =>
    let amountApplied := saleBalance sale
    let sales' := updateSaleRow sales sale.id 0 .paid
    let out := cpSettleLoop rest sales'
    (out.1, ⟨sale.id, amountApplied, 0, .paid⟩ :: out.2)

/-- The total-and-validation loop of `_process_specific_sales_payment`:
raises on the first already-paid sale, otherwise sums the outstanding
balances of the selected sales. -/
def totalPaymentForSales : List SaleRow → Except ApiError Money
  | [] => .ok 0
  | s :: rest =>
    if s.payment_status = .paid then .error (.http 400 "Sale is already paid")
    else
      match totalPaymentForSales rest with
      | .error e => .error e
      | .ok t => .ok (saleBalance s + t)

/-- Query order key of `ORDER BY created_at ASC`. -/
def createdLe (a b : SaleRow) : Prop := a.created_at ≤ b.created_at

instance : DecidableRel createdLe := fun a b =>
  inferInstanceAs (Decidable (a.created_at ≤ b.created_at))

instance : IsTotal SaleRow createdLe :=
  ⟨fun a b => Nat.le_total a.created_at b.created_at⟩

instance : IsTrans SaleRow createdLe :=
  ⟨fun _ _ _ h h' => Nat.le_trans h h'⟩

/-- Query order key of `ORDER BY created_at ASC, id ASC`: creation timestamp
ascending, ties broken by invoice id ascending. -/
def createdIdLe (a b : SaleRow) : Prop :=
  a.created_at < b.created_at ∨ (a.created_at = b.created_at ∧ a.id ≤ b.id)

instance : DecidableRel createdIdLe := fun a b =>
  inferInstanceAs (Decidable (_ ∨ _))

instance : IsTotal SaleRow createdIdLe := by
  constructor
  intro a b
  rcases Nat.lt_trichotomy a.created_at b.created_at with h | h | h
  · exact Or.inl (Or.inl h)
  · rcases Nat.le_total a.id b.id with h' | h'
    · exact Or.inl (Or.inr ⟨h, h'⟩)
    · exact Or.inr (Or.inr ⟨h.symm, h'⟩)
  · exact Or.inr (Or.inl h)

instance : IsTrans SaleRow createdIdLe := by
  constructor
  intro a b c hab hbc
  rcases hab with h | ⟨he, hi⟩
  · rcases hbc with h' | ⟨he', _⟩
    · exact Or.inl (Nat.lt_trans h h')
    · exact Or.inl (he' ▸ h)
  · rcases hbc with h' | ⟨he', hi'⟩
    · exact Or.inl (he ▸ h')
    · exact Or.inr ⟨he.trans he', hi.trans hi'⟩

/-- Sort key of `sales_list.sort(key=lambda x: x['id'])`. -/
def idLe (a b : SaleRow) : Prop := a.id ≤ b.id

instance : DecidableRel idLe := fun a b =>
  inferInstanceAs (Decidable (a.id ≤ b.id))

instance : IsTotal SaleRow idLe := ⟨fun a b => Nat.le_total a.id b.id⟩

instance : IsTrans SaleRow idLe := ⟨fun _ _ _ h h' => Nat.le_trans h h'⟩

/-- Embedding of `SELECT ... FROM sales WHERE customer_id = ? AND
payment_status IN ('pending', 'partial')` in table order. -/
def outstandingSalesOf (db : DB) (cid : ℕ) : List SaleRow :=
  db.sales.filter fun s => s.customer_id == some cid && isOutstanding s

/-- Candidate list of the `customer_payments.py` general path:
the outstanding sales ordered by `created_at ASC` (a stable sort of the
table-order rows). -/
def cpGeneralCandidates (db : DB) (cid : ℕ) : List SaleRow :=
  List.insertionSort createdLe (outstandingSalesOf db cid)

/-- Candidate list of the `credit_management.py` general path:
the outstanding sales ordered by `created_at ASC, id ASC`. -/
def cmGeneralCandidates (db : DB) (cid : ℕ) : List SaleRow :=
  List.insertionSort createdIdLe (outstandingSalesOf db cid)

/-- Embedding of `SELECT ... FROM sales WHERE id IN (...) AND
customer_id = ?` in table order. -/
def selectedSales (db : DB) (cid : ℕ) (saleIds : List ℕ) : List SaleRow :=
  db.sales.filter fun s => saleIds.contains s.id && s.customer_id == some cid

/-- The `sale_payments` rows produced by the best-effort allocation insert
loop: the insert of each updated sale succeeds exactly when `auditOk` holds
of its sale id; failed inserts are logged and skipped. -/
def allocationsFor (payId : ℕ) (upds : List UpdatedSale)
    (auditOk : ℕ → Bool) : List AllocationRow :=
  (upds.filter fun u => auditOk u.sale_id).map
    fun u => ⟨u.sale_id, payId, u.amount_applied⟩

/-- Embedding of `_process_general_payment` (`customer_payments.py`).
`auditOk` models per-row success of the best-effort `sale_payments`
inserts. -/
def cpProcessGeneralPayment (db : DB) (customerId : ℕ)
    (currentBalance paymentAmount : Money) (paymentType : String)
    (auditOk : ℕ → Bool) : Except ApiError (DB × PaymentResult) :=
  if currentBalance < paymentAmount then
    .error (.http 400 "Payment amount exceeds outstanding balance")
  else
    let w := cpGeneralLoop paymentAmount (cpGeneralCandidates db customerId) db.sales
    let nb0 := round2 (currentBalance - paymentAmount)
    let newBalance := if nb0 < 0 then 0 else nb0
    let paymentId := db.customer_payments.length + 1
    let salePayments :=
      if db.has_sale_payments_table then
        db.sale_payments ++ allocationsFor paymentId w.updated_sales auditOk
      else db.sale_payments
    .ok (⟨updateCustomerBalance db.customers customerId newBalance,
          w.sales,
          db.customer_payments ++ [⟨customerId, paymentAmount, paymentType⟩],
          salePayments,
          db.has_sale_payments_table⟩,
         ⟨newBalance, w.paid_sales, w.updated_sales, paymentId⟩)

/-- Embedding of `_process_specific_sales_payment` (`customer_payments.py`).
The request's `amount` is not a parameter: the source settles each selected
sale in full for its outstanding balance. -/
def cpProcessSpecificSalesPayment (db : DB) (customerId : ℕ)
    (currentBalance : Money) (saleIds : List ℕ) (auditOk : ℕ → Bool) :
    Except ApiError (DB × PaymentResult) :=
  let sel := selectedSales db customerId saleIds
  if sel.length ≠ saleIds.length then
    .error (.http 400 "One or more sales not found or do not belong to this customer")
  else
    match totalPaymentForSales sel with
    | .error e => .error e
    | .ok totalPayment =>
      if currentBalance < totalPayment then
        .error (.http 400 "Total payment amount exceeds outstanding balance")
      else
        let out := cpSettleLoop sel db.sales
        let nb0 := round2 (currentBalance - totalPayment)
        let newBalance := if nb0 < 0 then 0 else nb0
        let paymentId := db.customer_payments.length + 1
        let salePayments :=
          if db.has_sale_payments_table then
            db.sale_payments ++ allocationsFor paymentId out.2 auditOk
          else db.sale_payments
        .ok (⟨updateCustomerBalance db.customers customerId newBalance,
              out.1,
              db.customer_payments ++
                [⟨customerId, totalPayment, "specific_sales_payment"⟩],
              salePayments,
              db.has_sale_payments_table⟩,
             ⟨newBalance, saleIds, out.2, paymentId⟩)

/-- Embedding of the `process_customer_payment` endpoint
(`customer_payments.py`): customer lookup, amount validation, then dispatch
on whether `sale_ids` was supplied. -/
def processCustomerPayment (db : DB) (customerId : ℕ) (amount : Money)
    (saleIds : List ℕ) (paymentType : String) (auditOk : ℕ → Bool) :
    Except ApiError (DB × PaymentResult) :=
  match findCustomer db customerId with
  | none => .error (.http 404 "Customer not found")
  | some customer =>
    if amount ≤ 0 then .error (.http 400 "Invalid payment amount")
    else if saleIds.isEmpty then
      cpProcessGeneralPayment db customerId customer.current_balance amount
        paymentType auditOk
    else
      cpProcessSpecificSalesPayment db customerId customer.current_balance
        saleIds auditOk

/-- Embedding of `_process_general_credit_payment` (`credit_management.py`).
No allocation audit rows are written by this entry point, and the new
customer balance is the exact unclamped difference. -/
def cmProcessGeneralCreditPayment (db : DB) (customer : CustomerRow)
    (paymentAmount : Money) : Except ApiError (DB × PaymentResult) :=
  if customer.current_balance < paymentAmount then
    .error (.http 400 "Payment amount exceeds customer's outstanding balance")
  else
    let w := cmApplyLoop paymentAmount (cmGeneralCandidates db customer.id) db.sales
    let newBalance := customer.current_balance - paymentAmount
    .ok (⟨updateCustomerBalance db.customers customer.id newBalance,
          w.sales,
          db.customer_payments ++ [⟨customer.id, paymentAmount, "credit_payment"⟩],
          db.sale_payments,
          db.has_sale_payments_table⟩,
         ⟨newBalance, w.paid_sales, w.updated_sales,
          db.customer_payments.length + 1⟩)

/-- Embedding of `_process_payment_for_specific_sales`
(`credit_management.py`): ownership check, a cap of the amount by the
selected total, a walk in id order; note there is no already-paid check. -/
def cmProcessSpecificSalesPayment (db : DB) (customer : CustomerRow)
    (saleIds : List ℕ) (paymentAmount : Money) :
    Except ApiError (DB × PaymentResult) :=
  let sel := selectedSales db customer.id saleIds
  if sel.length ≠ saleIds.length then
    .error (.http 400 "One or more sales not found or do not belong to this customer")
  else
    let totalBalanceDue := (sel.map saleBalance).sum
    if totalBalanceDue < paymentAmount then
      .error (.http 400 "Payment amount exceeds total balance due")
    else
      let sorted := List.insertionSort idLe sel
      let w := cmApplyLoop paymentAmount sorted db.sales
      let newBalance := max 0 (customer.current_balance - paymentAmount)
      .ok (⟨updateCustomerBalance db.customers customer.id newBalance,
            w.sales,
            db.customer_payments ++ [⟨customer.id, paymentAmount, "credit_payment"⟩],
            db.sale_payments,
            db.has_sale_payments_table⟩,
           ⟨newBalance, w.paid_sales, w.updated_sales,
            db.customer_payments.length + 1⟩)

/-- One iteration of `reconcile_customer_balances`: recompute the customer's
outstanding total from `sales` and overwrite `current_balance` when it
drifts by more than 0.01.  Returns the new state and whether a correction
was recorded. -/
def reconcileStep (db : DB) (cid : ℕ) : DB × Bool :=
  let calculated :=
    ((db.sales.filter fun s => s.customer_id == some cid && isOutstanding s).map
      (fun s => s.balance_due)).sum
  let current := ((findCustomer db cid).map (fun c => c.current_balance)).getD 0
  if (1 : ℚ)/100 < |calculated - current| then
    ({ db with customers := updateCustomerBalance db.customers cid calculated }, true)
  else (db, false)

/-- The iteration of `reconcile_customer_balances` over the snapshot list of
customer ids, threading the database and the corrected count. -/
def reconcileLoop : List ℕ → DB × ℕ → DB × ℕ
  | [], acc => acc
  | cid :: rest, acc =>
    let step := reconcileStep acc.1 cid
    reconcileLoop rest (step.1, acc.2 + if step.2 then 1 else 0)

/-- Embedding of the `reconcile_customer_balances` endpoint
(`customer_payments.py`): iterate over a snapshot of all customer ids,
correcting each drifted balance; returns the corrected count. -/
def reconcileCustomerBalances (db : DB) : DB × ℕ :=
  reconcileLoop (db.customers.map fun c => c.id) (db, 0)

/-- The reconciliation closeness test for one customer: the recomputed
outstanding total differs from the stored balance by at most 0.01. -/
def reconClose (db : DB) (cid : ℕ) : Prop :=
  |((db.sales.filter fun s => s.customer_id == some cid && isOutstanding s).map
      (fun s => s.balance_due)).sum -
    (((findCustomer db cid).map fun c => c.current_balance).getD 0)| ≤ 1/100

/-- Process-level state for the store adapter: the database plus the number
of pooled idle connections. -/
structure SysState where
  db : DB
  pool : ℕ
deriving DecidableEq

/-- Embedding of `DatabaseManager.return_connection`: re-pool the connection
when the pool is below its bound, otherwise close it. -/
def returnConn (p maxConn : ℕ) : ℕ := if p < maxConn then p + 1 else p

/-- Embedding of `DatabaseManager.get_cursor`: acquire a connection, run the
unit of work, commit its writes on success or roll them back and propagate
the exception on failure, and return the connection to the pool on both
paths. -/
def withCursor {α : Type} (maxConn : ℕ) (st : SysState)
    (body : DB → Except ApiError (DB × α)) : SysState × Except ApiError α :=
  let pAcq := st.pool - 1
  match body st.db with
  | .ok (db', a) => (⟨db', returnConn pAcq maxConn⟩, .ok a)
  | .error e => (⟨st.db, returnConn pAcq maxConn⟩, .error e)

/-- Modelled from the spec (§4.1 general mode), for refinement comparison
with the source loops: walk the candidate list; each invoice receives
`applied = min(remaining, balance_due)`; both quantities are reduced by
`applied`; status becomes `paid` when the new balance is at most 0, else
`partial`; stop when the remaining payment is at most 0 or the list ends. -/
def claimWalk : Money → List SaleRow → Money × List UpdatedSale
  | remaining, [] => (remaining, [])
  | remaining, s :: rest =>
    if remaining ≤ 0 then (remaining, [])
    else
      let applied := min remaining s.balance_due
      let newBalance := s.balance_due - applied
      let newStatus := if newBalance ≤ 0 then PayStatus.paid else PayStatus.partPaid
      let w := claimWalk (remaining - applied) rest
      (w.1, ⟨s.id, applied, newBalance, newStatus⟩ :: w.2)

/-- Sum of the `amount_applied` entries of an `updated_sales` list. -/
def appliedSum (upds : List UpdatedSale) : Money :=
  (upds.map fun u => u.amount_applied).sum

/-- Replay a list of recorded sale updates against a sales table. -/
def applyUpds (upds : List UpdatedSale) (sales : List SaleRow) : List SaleRow :=
  upds.foldl (fun ss u => updateSaleRow ss u.sale_id u.new_balance u.new_status) sales

/-- Whether a payment run succeeded (observer used by counterexamples). -/
def runIsOk (e : Except ApiError (DB × PaymentResult)) : Bool :=
  match e with
  | .ok _ => true
  | .error _ => false

/-- The `balance_due` of sale `sid` in the database a successful run
returned (0 when the run failed or the sale is absent). -/
def runSaleBalance (e : Except ApiError (DB × PaymentResult)) (sid : ℕ) : Money :=
  match e with
  | .ok (db, _) => (((db.sales.find? fun s => s.id == sid).map
      fun s => s.balance_due).getD 0)
  | .error _ => 0

/-- The `payment_status` of sale `sid` in the database a successful run
returned (`cancelled` used as the absent default). -/
def runSaleStatus (e : Except ApiError (DB × PaymentResult)) (sid : ℕ) : PayStatus :=
  match e with
  | .ok (db, _) => (((db.sales.find? fun s => s.id == sid).map
      fun s => s.payment_status).getD .cancelled)
  | .error _ => .cancelled

/-- The list of `new_balance` values of a successful run's `updated_sales`
(empty when the run failed). -/
def runUpdatedBalances (e : Except ApiError (DB × PaymentResult)) : List Money :=
  match e with
  | .ok (_, r) => r.updated_sales.map fun u => u.new_balance
  | .error _ => []

/-! Concrete database states used by the witnesses and counterexamples. -/

/-- The concrete scenario of spec §8: one customer owing 150 across two
pending invoices (100 created at time 1, 50 created at time 5). -/
def exDbA : DB :=
  ⟨[⟨1, 150⟩],
   [⟨1, some 1, 100, 100, .pending, 1⟩, ⟨2, some 1, 50, 50, .pending, 5⟩],
   [], [], false⟩

/-- The oldest-first ordering scenario of spec §8: invoices of 50 (day 1)
and 30 (day 2). -/
def exDbB : DB :=
  ⟨[⟨1, 80⟩],
   [⟨1, some 1, 50, 50, .pending, 1⟩, ⟨2, some 1, 30, 30, .pending, 2⟩],
   [], [], false⟩

/-- Like `exDbA` but with the `sale_payments` audit table present. -/
def exDbC : DB :=
  ⟨[⟨1, 150⟩],
   [⟨1, some 1, 100, 100, .pending, 1⟩, ⟨2, some 1, 50, 50, .pending, 5⟩],
   [], [], true⟩

/-- A sub-cent state: one pending invoice with grand total and balance both
0.016, customer balance 0.016. -/
def exDbRound : DB :=
  ⟨[⟨1, 2/125⟩], [⟨1, some 1, 2/125, 2/125, .pending, 0⟩], [], [], false⟩

/-- A sub-cent state: one pending invoice with grand total and balance both
0.015, customer balance 0.015. -/
def exDbSubCent : DB :=
  ⟨[⟨1, 3/200⟩], [⟨1, some 1, 3/200, 3/200, .pending, 0⟩], [], [], false⟩

/-- A state with one already-paid invoice (grand total 100, balance 0). -/
def exDbPaid : DB :=
  ⟨[⟨1, 0⟩], [⟨1, some 1, 100, 0, .paid, 0⟩], [], [], false⟩

/-! Arithmetic lemmas about two-decimal rounding. -/

theorem round2_zero : round2 0 = 0 := by
  simp [round2]

theorem round2_mono {a b : Money} (h : a ≤ b) : round2 a ≤ round2 b := by
  unfold round2
  have h100 : a * 100 ≤ b * 100 := by nlinarith
  have : round (a * 100) ≤ round (b * 100) := by
    rw [round_eq, round_eq]
    exact Int.floor_mono (by linarith)
  have : ((round (a * 100) : ℤ) : ℚ) ≤ ((round (b * 100) : ℤ) : ℚ) := by
    exact_mod_cast this
  linarith

theorem round2_nonneg {q : Money} (h : 0 ≤ q) : 0 ≤ round2 q := by
  have := round2_mono h
  rwa [round2_zero] at this

theorem is2dp_intDiv (n : ℤ) : is2dp ((n : ℚ) / 100) := by
  unfold is2dp
  have : ((n : ℚ) / 100) * 100 = (n : ℚ) := by
    field_simp
  rw [this, Rat.den_intCast]

theorem is2dp_elim {q : Money} (h : is2dp q) : ∃ n : ℤ, q = (n : ℚ) / 100 := by
  refine ⟨(q * 100).num, ?_⟩
  have h1 : (((q * 100).num : ℤ) : ℚ) = q * 100 := (Rat.den_eq_one_iff _).mp h
  have : (100 : ℚ) ≠ 0 := by norm_num
  field_simp [h1]

theorem round2_eq_self {q : Money} (h : is2dp q) : round2 q = q := by
  obtain ⟨n, rfl⟩ := is2dp_elim h
  unfold round2
  have h1 : (n : ℚ) / 100 * 100 = (n : ℚ) := by field_simp
  rw [h1, round_intCast]

theorem is2dp_round2 (q : Money) : is2dp (round2 q) := is2dp_intDiv _

theorem is2dp_zero : is2dp 0 := by
  unfold is2dp
  norm_num

theorem is2dp_sub {a b : Money} (ha : is2dp a) (hb : is2dp b) : is2dp (a - b) := by
  obtain ⟨n, rfl⟩ := is2dp_elim ha
  obtain ⟨m, rfl⟩ := is2dp_elim hb
  have : (n : ℚ) / 100 - (m : ℚ) / 100 = ((n - m : ℤ) : ℚ) / 100 := by
    push_cast
    ring
  rw [this]
  exact is2dp_intDiv _

theorem is2dp_min {a b : Money} (ha : is2dp a) (hb : is2dp b) :
    is2dp (min a b) := by
  rcases min_cases a b with ⟨h, _⟩ | ⟨h, _⟩ <;> rw [h] <;> assumption

theorem round2_le_of_le_2dp {x g : Money} (hxg : x ≤ g) (hg : is2dp g) :
    round2 x ≤ g := by
  have := round2_mono hxg
  rwa [round2_eq_self hg] at this

/-! List-level lemmas about the embedded tables and update operations. -/

theorem eq_of_mem_nodup_ids {sales : List SaleRow}
    (h : (sales.map fun s => s.id).Nodup) {s t : SaleRow}
    (hs : s ∈ sales) (ht : t ∈ sales) (hid : s.id = t.id) : s = t := by
  induction sales with
  | nil => cases hs
  | cons a l ih =>
    rw [List.map_cons, List.nodup_cons] at h
    rcases List.mem_cons.mp hs with rfl | hs' <;>
      rcases List.mem_cons.mp ht with rfl | ht'
    · rfl
    · exfalso
      apply h.1
      rw [hid]
      exact List.mem_map_of_mem (fun s => s.id) ht'
    · exfalso
      apply h.1
      rw [← hid]
      exact List.mem_map_of_mem (fun s => s.id) hs'
    · exact ih h.2 hs' ht'

theorem mem_updateSaleRow {sales : List SaleRow} {sid : ℕ} {nb : Money}
    {st : PayStatus} {s' : SaleRow} (h : s' ∈ updateSaleRow sales sid nb st) :
    ∃ s ∈ sales,
      s' = if s.id = sid then { s with balance_due := nb, payment_status := st }
           else s := by
  unfold updateSaleRow at h
  obtain ⟨s, hs, heq⟩ := List.mem_map.mp h
  exact ⟨s, hs, heq.symm⟩

theorem applyUpds_nil (sales : List SaleRow) : applyUpds [] sales = sales := rfl

theorem applyUpds_cons (u : UpdatedSale) (upds : List UpdatedSale)
    (sales : List SaleRow) :
    applyUpds (u :: upds) sales =
      applyUpds upds (updateSaleRow sales u.sale_id u.new_balance u.new_status) :=
  rfl

theorem applyUpds_mem : ∀ (upds : List UpdatedSale) (sales : List SaleRow)
    {s' : SaleRow}, s' ∈ applyUpds upds sales →
    ∃ s ∈ sales, s'.id = s.id ∧ s'.grand_total = s.grand_total ∧
      s'.customer_id = s.customer_id ∧ s'.created_at = s.created_at ∧
      (s' = s ∨ ∃ u ∈ upds, u.sale_id = s.id ∧
        s'.balance_due = u.new_balance ∧ s'.payment_status = u.new_status)
  | [], sales, s', h => ⟨s', h, rfl, rfl, rfl, rfl, Or.inl rfl⟩
  | u :: upds, sales, s', h => by
    rw [applyUpds_cons] at h
    obtain ⟨s₁, hs₁, hid, hgt, hcust, hcr, hrest⟩ := applyUpds_mem upds _ h
    obtain ⟨s, hs, hcase⟩ := mem_updateSaleRow hs₁
    by_cases hmatch : s.id = u.sale_id
    · rw [if_pos hmatch] at hcase
      subst hcase
      refine ⟨s, hs, hid, hgt, hcust, hcr, Or.inr ?_⟩
      rcases hrest with rfl | ⟨u', hu', hid', hbd', hst'⟩
      · exact ⟨u, List.mem_cons_self _ _, hmatch.symm, rfl, rfl⟩
      · exact ⟨u', List.mem_cons_of_mem _ hu', hid', hbd', hst'⟩
    · rw [if_neg hmatch] at hcase
      refine ⟨s, hs, hcase ▸ hid, hcase ▸ hgt, hcase ▸ hcust, hcase ▸ hcr, ?_⟩
      rcases hrest with h' | ⟨u', hu', hid', hbd', hst'⟩
      · exact Or.inl (hcase ▸ h')
      · exact Or.inr ⟨u', List.mem_cons_of_mem _ hu', hcase ▸ hid', hbd', hst'⟩

theorem cpGeneralLoop_sales : ∀ (cands : List SaleRow) (rem : Money)
    (sales : List SaleRow),
    (cpGeneralLoop rem cands sales).sales =
      applyUpds (cpGeneralLoop rem cands sales).updated_sales sales
  | [], rem, sales => rfl
  | c :: rest, rem, sales => by
    by_cases h : rem ≤ 0
    · simp [cpGeneralLoop, h, applyUpds]
    · simp only [cpGeneralLoop, if_neg h]
      rw [applyUpds_cons]
      exact cpGeneralLoop_sales rest _ _

theorem cmApplyLoop_sales : ∀ (cands : List SaleRow) (rem : Money)
    (sales : List SaleRow),
    (cmApplyLoop rem cands sales).sales =
      applyUpds (cmApplyLoop rem cands sales).updated_sales sales
  | [], rem, sales => rfl
  | c :: rest, rem, sales => by
    by_cases h : rem ≤ 0
    · simp [cmApplyLoop, h, applyUpds]
    · simp only [cmApplyLoop, if_neg h]
      rw [applyUpds_cons]
      exact cmApplyLoop_sales rest _ _

theorem cpSettleLoop_sales : ∀ (cands : List SaleRow) (sales : List SaleRow),
    (cpSettleLoop cands sales).1 = applyUpds (cpSettleLoop cands sales).2 sales
  | [], sales => rfl
  | c :: rest, sales => by
    simp only [cpSettleLoop]
    rw [applyUpds_cons]
    exact cpSettleLoop_sales rest _

theorem saleBalance_bounds {c : SaleRow} (h : 0 ≤ c.balance_due)
    (h' : c.balance_due ≤ c.grand_total) :
    0 ≤ saleBalance c ∧ saleBalance c ≤ c.grand_total := by
  unfold saleBalance
  by_cases hz : c.balance_due = 0
  · rw [if_pos hz]
    exact ⟨hz ▸ h.trans h', le_refl _⟩
  · rw [if_neg hz]
    exact ⟨h, h'⟩

theorem cpGeneralLoop_updated_bounds : ∀ (cands : List SaleRow) (rem : Money)
    (sales : List SaleRow),
    (∀ c ∈ cands, 0 ≤ c.balance_due ∧ c.balance_due ≤ c.grand_total) →
    ∀ u ∈ (cpGeneralLoop rem cands sales).updated_sales,
      ∃ c ∈ cands, u.sale_id = c.id ∧ 0 ≤ u.new_balance ∧
        (is2dp c.grand_total → u.new_balance ≤ c.grand_total)
  | [], rem, sales, _, u, hu => by cases hu
  | c :: rest, rem, sales, hc, u, hu => by
    by_cases h : rem ≤ 0
    · rw [cpGeneralLoop, if_pos h] at hu
      cases hu
    · rw [cpGeneralLoop, if_neg h] at hu
      obtain ⟨hb0, hbg⟩ := saleBalance_bounds (hc c (List.mem_cons_self _ _)).1
        (hc c (List.mem_cons_self _ _)).2
      rcases List.mem_cons.mp hu with rfl | hu'
      · refine ⟨c, List.mem_cons_self _ _, rfl, ?_, ?_⟩
        · apply round2_nonneg
          have : min rem (saleBalance c) ≤ saleBalance c := min_le_right _ _
          linarith
        · intro h2
          apply round2_le_of_le_2dp _ h2
          have h0m : 0 ≤ min rem (saleBalance c) :=
            le_min (le_of_lt (lt_of_not_le h)) hb0
          linarith
      · obtain ⟨c', hc', rest'⟩ := cpGeneralLoop_updated_bounds rest _ _
          (fun x hx => hc x (List.mem_cons_of_mem _ hx)) u hu'
        exact ⟨c', List.mem_cons_of_mem _ hc', rest'⟩

theorem cmApplyLoop_updated_bounds : ∀ (cands : List SaleRow) (rem : Money)
    (sales : List SaleRow),
    (∀ c ∈ cands, 0 ≤ c.balance_due ∧ c.balance_due ≤ c.grand_total) →
    ∀ u ∈ (cmApplyLoop rem cands sales).updated_sales,
      ∃ c ∈ cands, u.sale_id = c.id ∧ 0 ≤ u.new_balance ∧
        u.new_balance ≤ c.grand_total
  | [], rem, sales, _, u, hu => by cases hu
  | c :: rest, rem, sales, hc, u, hu => by
    by_cases h : rem ≤ 0
    · rw [cmApplyLoop, if_pos h] at hu
      cases hu
    · rw [cmApplyLoop, if_neg h] at hu
      obtain ⟨hb0, hbg⟩ := saleBalance_bounds (hc c (List.mem_cons_self _ _)).1
        (hc c (List.mem_cons_self _ _)).2
      rcases List.mem_cons.mp hu with rfl | hu'
      · refine ⟨c, List.mem_cons_self _ _, rfl, ?_, ?_⟩
        · have : min rem (saleBalance c) ≤ saleBalance c := min_le_right _ _
          simp only
          linarith
        · have h0m : 0 ≤ min rem (saleBalance c) :=
            le_min (le_of_lt (lt_of_not_le h)) hb0
          simp only
          linarith
      · obtain ⟨c', hc', rest'⟩ := cmApplyLoop_updated_bounds rest _ _
          (fun x hx => hc x (List.mem_cons_of_mem _ hx)) u hu'
        exact ⟨c', List.mem_cons_of_mem _ hc', rest'⟩

theorem cpSettleLoop_updated : ∀ (cands : List SaleRow) (sales : List SaleRow),
    ∀ u ∈ (cpSettleLoop cands sales).2,
      ∃ c ∈ cands, u.sale_id = c.id ∧ u.new_balance = 0 ∧ u.new_status = .paid
  | [], sales, u, hu => by cases hu
  | c :: rest, sales, u, hu => by
    simp only [cpSettleLoop] at hu
    rcases List.mem_cons.mp hu with rfl | hu'
    · exact ⟨c, List.mem_cons_self _ _, rfl, rfl, rfl⟩
    · obtain ⟨c', hc', rest'⟩ := cpSettleLoop_updated rest _ u hu'
      exact ⟨c', List.mem_cons_of_mem _ hc', rest'⟩

/-! Lemmas about the candidate queries and their order. -/

theorem mem_outstandingSalesOf {db : DB} {cid : ℕ} {s : SaleRow} :
    s ∈ outstandingSalesOf db cid ↔
      s ∈ db.sales ∧ s.customer_id = some cid ∧
        (s.payment_status = .pending ∨ s.payment_status = .partPaid) := by
  unfold outstandingSalesOf isOutstanding
  simp [List.mem_filter, and_assoc]

theorem mem_cmGeneralCandidates {db : DB} {cid : ℕ} {s : SaleRow} :
    s ∈ cmGeneralCandidates db cid ↔
      s ∈ db.sales ∧ s.customer_id = some cid ∧
        (s.payment_status = .pending ∨ s.payment_status = .partPaid) := by
  unfold cmGeneralCandidates
  rw [List.mem_insertionSort]
  exact mem_outstandingSalesOf

theorem mem_cpGeneralCandidates {db : DB} {cid : ℕ} {s : SaleRow} :
    s ∈ cpGeneralCandidates db cid ↔
      s ∈ db.sales ∧ s.customer_id = some cid ∧
        (s.payment_status = .pending ∨ s.payment_status = .partPaid) := by
  unfold cpGeneralCandidates
  rw [List.mem_insertionSort]
  exact mem_outstandingSalesOf

theorem mem_selectedSales {db : DB} {cid : ℕ} {saleIds : List ℕ} {s : SaleRow} :
    s ∈ selectedSales db cid saleIds ↔
      s ∈ db.sales ∧ s.id ∈ saleIds ∧ s.customer_id = some cid := by
  unfold selectedSales
  simp [List.mem_filter, and_assoc]

theorem createdIdLe_created {a b : SaleRow} (h : createdIdLe a b) :
    a.created_at ≤ b.created_at := by
  rcases h with h | ⟨h, _⟩
  · exact le_of_lt h
  · exact le_of_eq h

theorem sorted_orderedInsert_lex (a : SaleRow) : ∀ {L : List SaleRow},
    List.Sorted createdIdLe L → (∀ b ∈ L, a.id < b.id) →
    List.Sorted createdIdLe (List.orderedInsert createdLe a L)
  | [], _, _ => List.sorted_singleton a
  | b :: L', hL, hid => by
    rw [List.orderedInsert]
    rw [List.sorted_cons] at hL
    by_cases hab : createdLe a b
    · rw [if_pos hab]
      rw [List.sorted_cons]
      constructor
      · intro c hc
        rcases List.mem_cons.mp hc with rfl | hc'
        · rcases Nat.lt_or_ge a.created_at c.created_at with h | h
          · exact Or.inl h
          · exact Or.inr ⟨Nat.le_antisymm hab h, le_of_lt (hid c hc)⟩
        · have hbc : b.created_at ≤ c.created_at := createdIdLe_created (hL.1 c hc')
          have hac : a.created_at ≤ c.created_at := le_trans hab hbc
          rcases Nat.lt_or_ge a.created_at c.created_at with h | h
          · exact Or.inl h
          · exact Or.inr ⟨Nat.le_antisymm hac h,
              le_of_lt (hid c (List.mem_cons_of_mem _ hc'))⟩
      · exact List.sorted_cons.mpr ⟨hL.1, hL.2⟩
    · rw [if_neg hab]
      have hba : b.created_at < a.created_at := Nat.lt_of_not_le hab
      rw [List.sorted_cons]
      constructor
      · intro c hc
        rcases (List.mem_orderedInsert createdLe).mp hc with rfl | hc'
        · exact Or.inl hba
        · exact hL.1 c hc'
      · exact sorted_orderedInsert_lex a hL.2
          (fun c hc => hid c (List.mem_cons_of_mem _ hc))

theorem sorted_insertionSort_created_of_pairwise_id : ∀ {l : List SaleRow},
    l.Pairwise (fun x y => x.id < y.id) →
    List.Sorted createdIdLe (List.insertionSort createdLe l)
  | [], _ => List.sorted_nil
  | a :: t, h => by
    rw [List.pairwise_cons] at h
    rw [List.insertionSort]
    apply sorted_orderedInsert_lex a
      (sorted_insertionSort_created_of_pairwise_id h.2)
    intro b hb
    exact h.1 b ((List.perm_insertionSort createdLe t).mem_iff.mp hb)

/-! The allocation walks compared with the walk the spec describes. -/

theorem cmApplyLoop_eq_claimWalk : ∀ (cands : List SaleRow) (rem : Money)
    (sales : List SaleRow), (∀ c ∈ cands, c.balance_due ≠ 0) →
    ((cmApplyLoop rem cands sales).remaining,
      (cmApplyLoop rem cands sales).updated_sales) = claimWalk rem cands
  | [], rem, sales, _ => rfl
  | c :: rest, rem, sales, hc => by
    by_cases h : rem ≤ 0
    · rw [cmApplyLoop, claimWalk, if_pos h, if_pos h]
    · rw [cmApplyLoop, claimWalk, if_neg h, if_neg h]
      have hb : saleBalance c = c.balance_due := by
        unfold saleBalance
        rw [if_neg (hc c (List.mem_cons_self _ _))]
      have ihw := cmApplyLoop_eq_claimWalk rest
        (rem - min rem (saleBalance c)) (updateSaleRow sales c.id
          (saleBalance c - min rem (saleBalance c))
          (if saleBalance c - min rem (saleBalance c) ≤ 0 then PayStatus.paid
           else PayStatus.partPaid))
        (fun x hx => hc x (List.mem_cons_of_mem _ hx))
      simp only [hb] at ihw ⊢
      rw [Prod.mk.injEq] at ihw ⊢
      exact ⟨ihw.1, by rw [ihw.2]⟩

theorem cpGeneralLoop_eq_claimWalk : ∀ (cands : List SaleRow) (rem : Money)
    (sales : List SaleRow),
    (∀ c ∈ cands, c.balance_due ≠ 0 ∧ is2dp c.balance_due) → is2dp rem →
    ((cpGeneralLoop rem cands sales).remaining,
      (cpGeneralLoop rem cands sales).updated_sales) = claimWalk rem cands
  | [], rem, sales, _, _ => rfl
  | c :: rest, rem, sales, hc, hrem => by
    by_cases h : rem ≤ 0
    · rw [cpGeneralLoop, claimWalk, if_pos h, if_pos h]
    · rw [cpGeneralLoop, claimWalk, if_neg h, if_neg h]
      have hb : saleBalance c = c.balance_due := by
        unfold saleBalance
        rw [if_neg (hc c (List.mem_cons_self _ _)).1]
      have h2b : is2dp (saleBalance c) := by
        rw [hb]
        exact (hc c (List.mem_cons_self _ _)).2
      have h2m : is2dp (min rem (saleBalance c)) := is2dp_min hrem h2b
      have hround : round2 (saleBalance c - min rem (saleBalance c)) =
          saleBalance c - min rem (saleBalance c) :=
        round2_eq_self (is2dp_sub h2b h2m)
      have ihw := cpGeneralLoop_eq_claimWalk rest
        (rem - min rem (saleBalance c)) (updateSaleRow sales c.id
          (round2 (saleBalance c - min rem (saleBalance c)))
          (if round2 (saleBalance c - min rem (saleBalance c)) ≤ 0 then
            PayStatus.paid else PayStatus.partPaid))
        (fun x hx => hc x (List.mem_cons_of_mem _ hx)) (is2dp_sub hrem h2m)
      simp only [hb] at ihw ⊢
      rw [hb] at hround
      rw [Prod.mk.injEq] at ihw ⊢
      refine ⟨ihw.1, ?_⟩
      rw [ihw.2, hround]

/-! Conservation of the applied amounts. -/

theorem appliedSum_nil : appliedSum [] = 0 := rfl

theorem appliedSum_cons (u : UpdatedSale) (l : List UpdatedSale) :
    appliedSum (u :: l) = u.amount_applied + appliedSum l := by
  unfold appliedSum
  rw [List.map_cons, List.sum_cons]

theorem cpGeneralLoop_appliedSum : ∀ (cands : List SaleRow) (rem : Money)
    (sales : List SaleRow), 0 ≤ rem → (∀ c ∈ cands, 0 ≤ saleBalance c) →
    appliedSum (cpGeneralLoop rem cands sales).updated_sales =
      min rem ((cands.map saleBalance).sum)
  | [], rem, sales, h0, _ => by
    rw [cpGeneralLoop]
    simp [appliedSum_nil, min_eq_right h0]
  | c :: rest, rem, sales, h0, hc => by
    have hsum0 : 0 ≤ ((rest.map saleBalance).sum) :=
      List.sum_nonneg (by
        intro x hx
        obtain ⟨c', hc', rfl⟩ := List.mem_map.mp hx
        exact hc c' (List.mem_cons_of_mem _ hc'))
    have hb0 : 0 ≤ saleBalance c := hc c (List.mem_cons_self _ _)
    by_cases h : rem ≤ 0
    · have hz : rem = 0 := le_antisymm h h0
      rw [cpGeneralLoop, if_pos h]
      subst hz
      rw [List.map_cons, List.sum_cons]
      have h01 : (0 : ℚ) ≤ saleBalance c + (rest.map saleBalance).sum := by
        linarith
      rw [min_eq_left h01]
      rfl
    · rw [cpGeneralLoop, if_neg h]
      rw [appliedSum_cons]
      have hmin : min rem (saleBalance c) ≤ rem := min_le_left _ _
      have hrm0 : 0 ≤ rem - min rem (saleBalance c) := by linarith
      have ih := cpGeneralLoop_appliedSum rest (rem - min rem (saleBalance c))
        (updateSaleRow sales c.id
          (round2 (saleBalance c - min rem (saleBalance c)))
          (if round2 (saleBalance c - min rem (saleBalance c)) ≤ 0 then
            PayStatus.paid else PayStatus.partPaid))
        hrm0 (fun x hx => hc x (List.mem_cons_of_mem _ hx))
      simp only at ih ⊢
      rw [ih, List.map_cons, List.sum_cons]
      rcases le_total rem (saleBalance c) with hle | hle
      · have hle' : rem ≤ saleBalance c + (rest.map saleBalance).sum := by
          linarith
        rw [min_eq_left hle, min_eq_left hle']
        rw [sub_self, min_eq_left hsum0, add_zero]
      · rw [min_eq_right hle]
        rcases le_total (rem - saleBalance c) ((rest.map saleBalance).sum) with
          hle2 | hle2
        · have hle2' : rem ≤ saleBalance c + (rest.map saleBalance).sum := by
            linarith
          rw [min_eq_left hle2, min_eq_left hle2']
          ring
        · have hle2' : saleBalance c + (rest.map saleBalance).sum ≤ rem := by
            linarith
          rw [min_eq_right hle2, min_eq_right hle2']

theorem cmApplyLoop_appliedSum : ∀ (cands : List SaleRow) (rem : Money)
    (sales : List SaleRow), 0 ≤ rem → (∀ c ∈ cands, 0 ≤ saleBalance c) →
    appliedSum (cmApplyLoop rem cands sales).updated_sales =
      min rem ((cands.map saleBalance).sum)
  | [], rem, sales, h0, _ => by
    rw [cmApplyLoop]
    simp [appliedSum_nil, min_eq_right h0]
  | c :: rest, rem, sales, h0, hc => by
    have hsum0 : 0 ≤ ((rest.map saleBalance).sum) :=
      List.sum_nonneg (by
        intro x hx
        obtain ⟨c', hc', rfl⟩ := List.mem_map.mp hx
        exact hc c' (List.mem_cons_of_mem _ hc'))
    have hb0 : 0 ≤ saleBalance c := hc c (List.mem_cons_self _ _)
    by_cases h : rem ≤ 0
    · have hz : rem = 0 := le_antisymm h h0
      rw [cmApplyLoop, if_pos h]
      subst hz
      rw [List.map_cons, List.sum_cons]
      have h01 : (0 : ℚ) ≤ saleBalance c + (rest.map saleBalance).sum := by
        linarith
      rw [min_eq_left h01]
      rfl
    · rw [cmApplyLoop, if_neg h]
      rw [appliedSum_cons]
      have hmin : min rem (saleBalance c) ≤ rem := min_le_left _ _
      have hrm0 : 0 ≤ rem - min rem (saleBalance c) := by linarith
      have ih := cmApplyLoop_appliedSum rest (rem - min rem (saleBalance c))
        (updateSaleRow sales c.id (saleBalance c - min rem (saleBalance c))
          (if saleBalance c - min rem (saleBalance c) ≤ 0 then PayStatus.paid
           else PayStatus.partPaid))
        hrm0 (fun x hx => hc x (List.mem_cons_of_mem _ hx))
      simp only at ih ⊢
      rw [ih, List.map_cons, List.sum_cons]
      rcases le_total rem (saleBalance c) with hle | hle
      · have hle' : rem ≤ saleBalance c + (rest.map saleBalance).sum := by
          linarith
        rw [min_eq_left hle, min_eq_left hle']
        rw [sub_self, min_eq_left hsum0, add_zero]
      · rw [min_eq_right hle]
        rcases le_total (rem - saleBalance c) ((rest.map saleBalance).sum) with
          hle2 | hle2
        · have hle2' : rem ≤ saleBalance c + (rest.map saleBalance).sum := by
            linarith
          rw [min_eq_left hle2, min_eq_left hle2']
          ring
        · have hle2' : saleBalance c + (rest.map saleBalance).sum ≤ rem := by
            linarith
          rw [min_eq_right hle2, min_eq_right hle2']

theorem saleBalance_nonneg {s : SaleRow} (h1 : 0 ≤ s.balance_due)
    (h2 : 0 ≤ s.grand_total) : 0 ≤ saleBalance s := by
  unfold saleBalance
  by_cases hz : s.balance_due = 0
  · rwa [if_pos hz]
  · rwa [if_neg hz]

theorem balance_due_le_saleBalance {s : SaleRow} (h2 : 0 ≤ s.grand_total) :
    s.balance_due ≤ saleBalance s := by
  unfold saleBalance
  by_cases hz : s.balance_due = 0
  · rw [if_pos hz, hz]
    exact h2
  · rw [if_neg hz]

theorem cmCandidates_saleBalance_sum (db : DB) (cid : ℕ) :
    ((cmGeneralCandidates db cid).map saleBalance).sum =
      ((outstandingSalesOf db cid).map saleBalance).sum :=
  (((List.perm_insertionSort createdIdLe (outstandingSalesOf db cid))).map
    saleBalance).sum_eq

theorem cpCandidates_saleBalance_sum (db : DB) (cid : ℕ) :
    ((cpGeneralCandidates db cid).map saleBalance).sum =
      ((outstandingSalesOf db cid).map saleBalance).sum :=
  (((List.perm_insertionSort createdLe (outstandingSalesOf db cid))).map
    saleBalance).sum_eq

theorem outstanding_balance_le_saleBalance_sum {db : DB} {cid : ℕ}
    (hwf : ∀ s ∈ outstandingSalesOf db cid,
      0 ≤ s.balance_due ∧ 0 ≤ s.grand_total) :
    ((outstandingSalesOf db cid).map fun s => s.balance_due).sum ≤
      ((outstandingSalesOf db cid).map saleBalance).sum := by
  apply List.sum_le_sum
  intro s hs
  exact balance_due_le_saleBalance (hwf s hs).2

theorem preserve_via_updates (P : SaleRow → Prop) {db : DB}
    (hnodup : (db.sales.map fun s => s.id).Nodup)
    (hinv : ∀ s ∈ db.sales, 0 ≤ s.balance_due ∧ s.balance_due ≤ s.grand_total)
    {upds : List UpdatedSale} {salesF : List SaleRow}
    (hsales : salesF = applyUpds upds db.sales)
    (hbounds : ∀ u ∈ upds, ∃ c ∈ db.sales, u.sale_id = c.id ∧
      0 ≤ u.new_balance ∧ (P c → u.new_balance ≤ c.grand_total)) :
    ∀ s' ∈ salesF, ∃ s ∈ db.sales, s'.id = s.id ∧
      s'.grand_total = s.grand_total ∧ 0 ≤ s'.balance_due ∧
      (P s → s'.balance_due ≤ s'.grand_total) := by
  subst hsales
  intro s' hs'
  obtain ⟨s, hs, hid, hgt, _, _, hcase⟩ := applyUpds_mem upds db.sales hs'
  rcases hcase with heq | ⟨u, hu, huid, hubd, _⟩
  · refine ⟨s, hs, hid, hgt, ?_, ?_⟩
    · rw [heq]
      exact (hinv s hs).1
    · intro _
      rw [heq]
      exact (hinv s hs).2
  · obtain ⟨c, hc, hcid, hnb0, hnble⟩ := hbounds u hu
    have hceq : c = s := eq_of_mem_nodup_ids hnodup hc hs (hcid ▸ huid)
    subst hceq
    refine ⟨c, hc, hid, hgt, ?_, ?_⟩
    · rw [hubd]
      exact hnb0
    · intro hP
      rw [hubd, hgt]
      exact hnble hP

/-- C1: for every valid general-mode payment (amount strictly positive, not
exceeding the customer's recorded balance, applied to a customer whose
stored `current_balance` equals the sum of `balance_due` over their
outstanding invoices), both general-path implementations return success,
with the per-invoice applied amounts summing exactly to the payment amount
and the new customer balance equal to `max 0 (old_balance - amount)`.  The
`customer_payments.py` path computes its new balance through two-decimal
rounding, hence the whole-cent hypotheses on the amount and balance. -/
theorem c1_general_payment_conservation (db : DB) (customer : CustomerRow)
    (amount : Money) (paymentType : String) (auditOk : ℕ → Bool)
    (hpos : 0 < amount) (hle : amount ≤ customer.current_balance)
    (hbal : customer.current_balance =
      ((outstandingSalesOf db customer.id).map fun s => s.balance_due).sum)
    (hwf : ∀ s ∈ outstandingSalesOf db customer.id,
      0 ≤ s.balance_due ∧ 0 ≤ s.grand_total)
    (h2a : is2dp amount) (h2b : is2dp customer.current_balance) :
    (∃ db' r, cmProcessGeneralCreditPayment db customer amount = .ok (db', r) ∧
      appliedSum r.updated_sales = amount ∧
      r.new_balance = max 0 (customer.current_balance - amount)) ∧
    (∃ db' r, cpProcessGeneralPayment db customer.id customer.current_balance
        amount paymentType auditOk = .ok (db', r) ∧
      appliedSum r.updated_sales = amount ∧
      r.new_balance = max 0 (customer.current_balance - amount)) := by
  have h0 : (0 : ℚ) ≤ amount := le_of_lt hpos
  have hnotlt : ¬ customer.current_balance < amount := not_lt.mpr hle
  have hdiff0 : (0 : ℚ) ≤ customer.current_balance - amount := by linarith
  have hmax : max 0 (customer.current_balance - amount) =
      customer.current_balance - amount := max_eq_right hdiff0
  have hsum_out : amount ≤ ((outstandingSalesOf db customer.id).map
      saleBalance).sum := by
    calc amount ≤ customer.current_balance := hle
    _ = ((outstandingSalesOf db customer.id).map fun s => s.balance_due).sum :=
      hbal
    _ ≤ _ := outstanding_balance_le_saleBalance_sum hwf
  constructor
  · have hcand0 : ∀ c ∈ cmGeneralCandidates db customer.id,
        0 ≤ saleBalance c := by
      intro c hc
      have hmem := mem_cmGeneralCandidates.mp hc
      have hout : c ∈ outstandingSalesOf db customer.id :=
        mem_outstandingSalesOf.mpr hmem
      exact saleBalance_nonneg (hwf c hout).1 (hwf c hout).2
    have happ := cmApplyLoop_appliedSum (cmGeneralCandidates db customer.id)
      amount db.sales h0 hcand0
    have hsum : amount ≤ ((cmGeneralCandidates db customer.id).map
        saleBalance).sum := by
      rw [cmCandidates_saleBalance_sum]
      exact hsum_out
    refine ⟨⟨updateCustomerBalance db.customers customer.id
        (customer.current_balance - amount),
        (cmApplyLoop amount (cmGeneralCandidates db customer.id) db.sales).sales,
        db.customer_payments ++ [⟨customer.id, amount, "credit_payment"⟩],
        db.sale_payments, db.has_sale_payments_table⟩,
      ⟨customer.current_balance - amount,
        (cmApplyLoop amount (cmGeneralCandidates db customer.id)
          db.sales).paid_sales,
        (cmApplyLoop amount (cmGeneralCandidates db customer.id)
          db.sales).updated_sales,
        db.customer_payments.length + 1⟩, ?_, ?_, ?_⟩
    · rw [cmProcessGeneralCreditPayment, if_neg hnotlt]
    · show appliedSum (cmApplyLoop amount
        (cmGeneralCandidates db customer.id) db.sales).updated_sales = amount
      rw [happ, min_eq_left hsum]
    · show customer.current_balance - amount =
        max 0 (customer.current_balance - amount)
      rw [hmax]
  · have hcand0 : ∀ c ∈ cpGeneralCandidates db customer.id,
        0 ≤ saleBalance c := by
      intro c hc
      have hmem := mem_cpGeneralCandidates.mp hc
      have hout : c ∈ outstandingSalesOf db customer.id :=
        mem_outstandingSalesOf.mpr hmem
      exact saleBalance_nonneg (hwf c hout).1 (hwf c hout).2
    have happ := cpGeneralLoop_appliedSum (cpGeneralCandidates db customer.id)
      amount db.sales h0 hcand0
    have hsum : amount ≤ ((cpGeneralCandidates db customer.id).map
        saleBalance).sum := by
      rw [cpCandidates_saleBalance_sum]
      exact hsum_out
    have hr2 : round2 (customer.current_balance - amount) =
        customer.current_balance - amount := round2_eq_self (is2dp_sub h2b h2a)
    have hnneg : ¬ round2 (customer.current_balance - amount) < 0 := by
      rw [hr2]
      exact not_lt.mpr hdiff0
    refine ⟨⟨updateCustomerBalance db.customers customer.id
        (if round2 (customer.current_balance - amount) < 0 then 0
         else round2 (customer.current_balance - amount)),
        (cpGeneralLoop amount (cpGeneralCandidates db customer.id)
          db.sales).sales,
        db.customer_payments ++ [⟨customer.id, amount, paymentType⟩],
        (if db.has_sale_payments_table then
          db.sale_payments ++ allocationsFor (db.customer_payments.length + 1)
            (cpGeneralLoop amount (cpGeneralCandidates db customer.id)
              db.sales).updated_sales auditOk
         else db.sale_payments),
        db.has_sale_payments_table⟩,
      ⟨(if round2 (customer.current_balance - amount) < 0 then 0
         else round2 (customer.current_balance - amount)),
        (cpGeneralLoop amount (cpGeneralCandidates db customer.id)
          db.sales).paid_sales,
        (cpGeneralLoop amount (cpGeneralCandidates db customer.id)
          db.sales).updated_sales,
        db.customer_payments.length + 1⟩, ?_, ?_, ?_⟩
    · rw [cpProcessGeneralPayment, if_neg hnotlt]
    · show appliedSum (cpGeneralLoop amount
        (cpGeneralCandidates db customer.id) db.sales).updated_sales = amount
      rw [happ, min_eq_left hsum]
    · show (if round2 (customer.current_balance - amount) < 0 then 0
        else round2 (customer.current_balance - amount)) =
        max 0 (customer.current_balance - amount)
      rw [if_neg hnneg, hr2, hmax]

/-- Witness for C1 on the concrete scenario of spec §8: customer balance
150, invoices of 100 and 50, payment of 120. -/
theorem c1_general_payment_conservation_witness :
    (∃ db' r, cmProcessGeneralCreditPayment exDbA ⟨1, 150⟩ 120 = .ok (db', r) ∧
      appliedSum r.updated_sales = 120 ∧
      r.new_balance = max 0 ((150 : ℚ) - 120)) ∧
    (∃ db' r, cpProcessGeneralPayment exDbA 1 150 120 "credit_payment"
        (fun _ => true) = .ok (db', r) ∧
      appliedSum r.updated_sales = 120 ∧
      r.new_balance = max 0 ((150 : ℚ) - 120)) :=
  c1_general_payment_conservation exDbA ⟨1, 150⟩ 120 "credit_payment"
    (fun _ => true) (by norm_num) (by norm_num)
    (by norm_num [exDbA, outstandingSalesOf, isOutstanding])
    (by norm_num [exDbA, outstandingSalesOf, isOutstanding,
      List.forall_mem_cons])
    (by norm_num [is2dp]) (by norm_num [is2dp])

/-- C2: in general (oldest-first waterfall) mode, the candidate set is
exactly the customer's invoices with status pending or partial, ordered by
creation timestamp ascending with ties broken by invoice id ascending (for
the `customer_payments.py` query, which orders only by `created_at`, the id
tie-break comes from the stable sort over the id-ordered table); and the
walk over that list behaves exactly as the claim describes (`claimWalk`):
each invoice receives `min(remaining, balance_due)`, remaining and balance
both drop by that amount, status becomes paid exactly when the new balance
is at most 0, and the walk stops when the remaining payment is at most 0 or
the list ends.  The hypotheses ask that outstanding balances be nonzero
whole-cent amounts (a zero balance would make the source fall back to
`grand_total`, and the `customer_payments.py` path rounds, which is the
identity on whole cents). -/
theorem c2_general_candidates_and_walk (db : DB) (cid : ℕ) (amount : Money)
    (htable : db.sales.Pairwise fun a b => a.id < b.id)
    (hbd : ∀ s ∈ outstandingSalesOf db cid,
      s.balance_due ≠ 0 ∧ is2dp s.balance_due)
    (h2a : is2dp amount) :
    (∀ s, s ∈ cmGeneralCandidates db cid ↔ s ∈ db.sales ∧
      s.customer_id = some cid ∧
      (s.payment_status = .pending ∨ s.payment_status = .partPaid)) ∧
    List.Sorted createdIdLe (cmGeneralCandidates db cid) ∧
    (∀ s, s ∈ cpGeneralCandidates db cid ↔ s ∈ db.sales ∧
      s.customer_id = some cid ∧
      (s.payment_status = .pending ∨ s.payment_status = .partPaid)) ∧
    List.Sorted createdIdLe (cpGeneralCandidates db cid) ∧
    (∀ sales,
      ((cmApplyLoop amount (cmGeneralCandidates db cid) sales).remaining,
       (cmApplyLoop amount (cmGeneralCandidates db cid) sales).updated_sales) =
      claimWalk amount (cmGeneralCandidates db cid)) ∧
    (∀ sales,
      ((cpGeneralLoop amount (cpGeneralCandidates db cid) sales).remaining,
       (cpGeneralLoop amount (cpGeneralCandidates db cid) sales).updated_sales) =
      claimWalk amount (cpGeneralCandidates db cid)) := by
  have hcm : ∀ c ∈ cmGeneralCandidates db cid,
      c.balance_due ≠ 0 ∧ is2dp c.balance_due := by
    intro c hc
    exact hbd c (mem_outstandingSalesOf.mpr (mem_cmGeneralCandidates.mp hc))
  have hcp : ∀ c ∈ cpGeneralCandidates db cid,
      c.balance_due ≠ 0 ∧ is2dp c.balance_due := by
    intro c hc
    exact hbd c (mem_outstandingSalesOf.mpr (mem_cpGeneralCandidates.mp hc))
  refine ⟨fun s => mem_cmGeneralCandidates,
    List.sorted_insertionSort createdIdLe _,
    fun s => mem_cpGeneralCandidates, ?_, ?_, ?_⟩
  · exact sorted_insertionSort_created_of_pairwise_id
      (List.Pairwise.sublist (List.filter_sublist _) htable)
  · intro sales
    exact cmApplyLoop_eq_claimWalk _ amount sales fun c hc => (hcm c hc).1
  · intro sales
    exact cpGeneralLoop_eq_claimWalk _ amount sales hcp h2a

/-- Witness for C2 on the spec §8 ordering scenario: invoices of 50
(created day 1) and 30 (created day 2), payment of 60. -/
theorem c2_general_candidates_and_walk_witness :
    (∀ s, s ∈ cmGeneralCandidates exDbB 1 ↔ s ∈ exDbB.sales ∧
      s.customer_id = some 1 ∧
      (s.payment_status = .pending ∨ s.payment_status = .partPaid)) ∧
    List.Sorted createdIdLe (cmGeneralCandidates exDbB 1) ∧
    (∀ s, s ∈ cpGeneralCandidates exDbB 1 ↔ s ∈ exDbB.sales ∧
      s.customer_id = some 1 ∧
      (s.payment_status = .pending ∨ s.payment_status = .partPaid)) ∧
    List.Sorted createdIdLe (cpGeneralCandidates exDbB 1) ∧
    (∀ sales,
      ((cmApplyLoop 60 (cmGeneralCandidates exDbB 1) sales).remaining,
       (cmApplyLoop 60 (cmGeneralCandidates exDbB 1) sales).updated_sales) =
      claimWalk 60 (cmGeneralCandidates exDbB 1)) ∧
    (∀ sales,
      ((cpGeneralLoop 60 (cpGeneralCandidates exDbB 1) sales).remaining,
       (cpGeneralLoop 60 (cpGeneralCandidates exDbB 1) sales).updated_sales) =
      claimWalk 60 (cpGeneralCandidates exDbB 1)) :=
  c2_general_candidates_and_walk exDbB 1 60 (by decide)
    (by norm_num [exDbB, outstandingSalesOf, isOutstanding, is2dp,
      List.forall_mem_cons])
    (by norm_num [is2dp])

/-- C3 counterexample: in the `customer_payments.py` general path the
two-decimal rounding of each new invoice balance can push `balance_due`
above `grand_total`.  Concretely, for an invoice with
`grand_total = balance_due = 0.016` (which satisfies
`0 ≤ balance_due ≤ grand_total`) and a payment of 0.001, the run succeeds
and leaves `balance_due = round(0.015, 2) = 0.02 > 0.016 = grand_total`. -/
theorem c3_balance_invariant_counterexample :
    ((0 : ℚ) ≤ 2/125 ∧ (2 : ℚ)/125 ≤ 2/125) ∧
    runIsOk (cpProcessGeneralPayment exDbRound 1 (2/125) (1/1000)
      "credit_payment" fun _ => true) = true ∧
    runSaleBalance (cpProcessGeneralPayment exDbRound 1 (2/125) (1/1000)
      "credit_payment" fun _ => true) 1 = 1/50 ∧
    ¬ (1 : ℚ)/50 ≤ 2/125 := by
  refine ⟨⟨by norm_num, le_refl _⟩, ?_, ?_, by norm_num⟩
  · norm_num [cpProcessGeneralPayment, exDbRound, cpGeneralCandidates,
      outstandingSalesOf, isOutstanding, List.insertionSort,
      List.orderedInsert, cpGeneralLoop, saleBalance, round2, round_eq,
      updateSaleRow, updateCustomerBalance, allocationsFor, runIsOk,
      min_def]
  · norm_num [cpProcessGeneralPayment, exDbRound, cpGeneralCandidates,
      outstandingSalesOf, isOutstanding, List.insertionSort,
      List.orderedInsert, cpGeneralLoop, saleBalance, round2, round_eq,
      updateSaleRow, updateCustomerBalance, allocationsFor, runSaleBalance,
      List.find?, min_def]

/-- C3 amended: every payment path keeps `0 ≤ balance_due`, and keeps
`balance_due ≤ grand_total` unconditionally in the
`credit_management.py` paths and the targeted `customer_payments.py` path;
in the general `customer_payments.py` path the upper bound is guaranteed
whenever the invoice's `grand_total` is a whole number of cents (the
rounding that breaks it in the counterexample is then the identity).
`grand_total` itself is never modified. -/
theorem c3_amended_balance_invariant (db : DB)
    (hnodup : (db.sales.map fun s => s.id).Nodup)
    (hinv : ∀ s ∈ db.sales, 0 ≤ s.balance_due ∧ s.balance_due ≤ s.grand_total) :
    (∀ cid cb amt pt f db' r,
      cpProcessGeneralPayment db cid cb amt pt f = .ok (db', r) →
      ∀ s' ∈ db'.sales, ∃ s ∈ db.sales, s'.id = s.id ∧
        s'.grand_total = s.grand_total ∧ 0 ≤ s'.balance_due ∧
        (is2dp s.grand_total → s'.balance_due ≤ s'.grand_total)) ∧
    (∀ cid cb ids f db' r,
      cpProcessSpecificSalesPayment db cid cb ids f = .ok (db', r) →
      ∀ s' ∈ db'.sales, ∃ s ∈ db.sales, s'.id = s.id ∧
        s'.grand_total = s.grand_total ∧ 0 ≤ s'.balance_due ∧
        s'.balance_due ≤ s'.grand_total) ∧
    (∀ customer amt db' r,
      cmProcessGeneralCreditPayment db customer amt = .ok (db', r) →
      ∀ s' ∈ db'.sales, ∃ s ∈ db.sales, s'.id = s.id ∧
        s'.grand_total = s.grand_total ∧ 0 ≤ s'.balance_due ∧
        s'.balance_due ≤ s'.grand_total) ∧
    (∀ customer ids amt db' r,
      cmProcessSpecificSalesPayment db customer ids amt = .ok (db', r) →
      ∀ s' ∈ db'.sales, ∃ s ∈ db.sales, s'.id = s.id ∧
        s'.grand_total = s.grand_total ∧ 0 ≤ s'.balance_due ∧
        s'.balance_due ≤ s'.grand_total) := by
  refine ⟨?_, ?_, ?_, ?_⟩
  · intro cid cb amt pt f db' r hrun
    rw [cpProcessGeneralPayment] at hrun
    by_cases hc : cb < amt
    · rw [if_pos hc] at hrun
      exact Except.noConfusion hrun
    · rw [if_neg hc] at hrun
      simp only [Except.ok.injEq, Prod.mk.injEq] at hrun
      obtain ⟨hdb, _⟩ := hrun
      subst hdb
      have hcands : ∀ c ∈ cpGeneralCandidates db cid,
          0 ≤ c.balance_due ∧ c.balance_due ≤ c.grand_total :=
        fun c hc' => hinv c (mem_cpGeneralCandidates.mp hc').1
      have hb : ∀ u ∈ (cpGeneralLoop amt (cpGeneralCandidates db cid)
          db.sales).updated_sales, ∃ c ∈ db.sales, u.sale_id = c.id ∧
          0 ≤ u.new_balance ∧
          (is2dp c.grand_total → u.new_balance ≤ c.grand_total) := by
        intro u hu
        obtain ⟨c, hc', h1, h2, h3⟩ :=
          cpGeneralLoop_updated_bounds _ amt db.sales hcands u hu
        exact ⟨c, (mem_cpGeneralCandidates.mp hc').1, h1, h2, h3⟩
      exact preserve_via_updates (fun s => is2dp s.grand_total) hnodup hinv
        (cpGeneralLoop_sales _ _ _) hb
  · intro cid cb ids f db' r hrun
    simp only [cpProcessSpecificSalesPayment] at hrun
    split at hrun
    · exact Except.noConfusion hrun
    · split at hrun
      · exact Except.noConfusion hrun
      · split at hrun
        · exact Except.noConfusion hrun
        · simp only [Except.ok.injEq, Prod.mk.injEq] at hrun
          obtain ⟨hdb, _⟩ := hrun
          subst hdb
          have hb : ∀ u ∈ (cpSettleLoop (selectedSales db cid ids)
              db.sales).2, ∃ c ∈ db.sales, u.sale_id = c.id ∧
              0 ≤ u.new_balance ∧ (True → u.new_balance ≤ c.grand_total) := by
            intro u hu
            obtain ⟨c, hc', h1, h2, _⟩ := cpSettleLoop_updated _ db.sales u hu
            have hcdb : c ∈ db.sales := (mem_selectedSales.mp hc').1
            refine ⟨c, hcdb, h1, ?_, ?_⟩
            · rw [h2]
            · intro _
              rw [h2]
              exact le_trans (hinv c hcdb).1 (hinv c hcdb).2
          intro s' hs'
          obtain ⟨s, hs, h1, h2, h3, h4⟩ := preserve_via_updates
            (fun _ => True) hnodup hinv (cpSettleLoop_sales _ _) hb s' hs'
          exact ⟨s, hs, h1, h2, h3, h4 trivial⟩
  · intro customer amt db' r hrun
    rw [cmProcessGeneralCreditPayment] at hrun
    by_cases hc : customer.current_balance < amt
    · rw [if_pos hc] at hrun
      exact Except.noConfusion hrun
    · rw [if_neg hc] at hrun
      simp only [Except.ok.injEq, Prod.mk.injEq] at hrun
      obtain ⟨hdb, _⟩ := hrun
      subst hdb
      have hcands : ∀ c ∈ cmGeneralCandidates db customer.id,
          0 ≤ c.balance_due ∧ c.balance_due ≤ c.grand_total :=
        fun c hc' => hinv c (mem_cmGeneralCandidates.mp hc').1
      have hb : ∀ u ∈ (cmApplyLoop amt (cmGeneralCandidates db customer.id)
          db.sales).updated_sales, ∃ c ∈ db.sales, u.sale_id = c.id ∧
          0 ≤ u.new_balance ∧ (True → u.new_balance ≤ c.grand_total) := by
        intro u hu
        obtain ⟨c, hc', h1, h2, h3⟩ :=
          cmApplyLoop_updated_bounds _ amt db.sales hcands u hu
        exact ⟨c, (mem_cmGeneralCandidates.mp hc').1, h1, h2, fun _ => h3⟩
      intro s' hs'
      obtain ⟨s, hs, h1, h2, h3, h4⟩ := preserve_via_updates (fun _ => True)
        hnodup hinv (cmApplyLoop_sales _ _ _) hb s' hs'
      exact ⟨s, hs, h1, h2, h3, h4 trivial⟩
  · intro customer ids amt db' r hrun
    simp only [cmProcessSpecificSalesPayment] at hrun
    split at hrun
    · exact Except.noConfusion hrun
    · split at hrun
      · exact Except.noConfusion hrun
      · simp only [Except.ok.injEq, Prod.mk.injEq] at hrun
        obtain ⟨hdb, _⟩ := hrun
        subst hdb
        have hcands : ∀ c ∈ List.insertionSort idLe
            (selectedSales db customer.id ids),
            0 ≤ c.balance_due ∧ c.balance_due ≤ c.grand_total := by
          intro c hc'
          have := (List.perm_insertionSort idLe _).mem_iff.mp hc'
          exact hinv c (mem_selectedSales.mp this).1
        have hb : ∀ u ∈ (cmApplyLoop amt (List.insertionSort idLe
            (selectedSales db customer.id ids)) db.sales).updated_sales,
            ∃ c ∈ db.sales, u.sale_id = c.id ∧ 0 ≤ u.new_balance ∧
            (True → u.new_balance ≤ c.grand_total) := by
          intro u hu
          obtain ⟨c, hc', h1, h2, h3⟩ :=
            cmApplyLoop_updated_bounds _ amt db.sales hcands u hu
          have := (List.perm_insertionSort idLe _).mem_iff.mp hc'
          exact ⟨c, (mem_selectedSales.mp this).1, h1, h2, fun _ => h3⟩
        intro s' hs'
        obtain ⟨s, hs, h1, h2, h3, h4⟩ := preserve_via_updates (fun _ => True)
          hnodup hinv (cmApplyLoop_sales _ _ _) hb s' hs'
        exact ⟨s, hs, h1, h2, h3, h4 trivial⟩

/-- Witness for the amended C3 on the spec §8 scenario database. -/
theorem c3_amended_balance_invariant_witness :
    (∀ cid cb amt pt f db' r,
      cpProcessGeneralPayment exDbA cid cb amt pt f = .ok (db', r) →
      ∀ s' ∈ db'.sales, ∃ s ∈ exDbA.sales, s'.id = s.id ∧
        s'.grand_total = s.grand_total ∧ 0 ≤ s'.balance_due ∧
        (is2dp s.grand_total → s'.balance_due ≤ s'.grand_total)) ∧
    (∀ cid cb ids f db' r,
      cpProcessSpecificSalesPayment exDbA cid cb ids f = .ok (db', r) →
      ∀ s' ∈ db'.sales, ∃ s ∈ exDbA.sales, s'.id = s.id ∧
        s'.grand_total = s.grand_total ∧ 0 ≤ s'.balance_due ∧
        s'.balance_due ≤ s'.grand_total) ∧
    (∀ customer amt db' r,
      cmProcessGeneralCreditPayment exDbA customer amt = .ok (db', r) →
      ∀ s' ∈ db'.sales, ∃ s ∈ exDbA.sales, s'.id = s.id ∧
        s'.grand_total = s.grand_total ∧ 0 ≤ s'.balance_due ∧
        s'.balance_due ≤ s'.grand_total) ∧
    (∀ customer ids amt db' r,
      cmProcessSpecificSalesPayment exDbA customer ids amt = .ok (db', r) →
      ∀ s' ∈ db'.sales, ∃ s ∈ exDbA.sales, s'.id = s.id ∧
        s'.grand_total = s.grand_total ∧ 0 ≤ s'.balance_due ∧
        s'.balance_due ≤ s'.grand_total) :=
  c3_amended_balance_invariant exDbA (by decide)
    (by norm_num [exDbA, List.forall_mem_cons])

theorem withCursor_error_state {α : Type} (maxConn : ℕ) (st : SysState)
    (body : DB → Except ApiError (DB × α)) {e : ApiError}
    (h : body st.db = .error e) :
    (withCursor maxConn st body).1.db = st.db ∧
    (withCursor maxConn st body).2 = .error e := by
  unfold withCursor
  rw [h]
  exact ⟨rfl, rfl⟩

/-- C4: a general-mode payment whose amount exceeds the customer's recorded
`current_balance` is rejected upfront with a 400 validation error carrying
the balance-exceeded message, in both entry points, and no state is
changed: the run returns before any write, and the transaction scope hands
back the original database. -/
theorem c4_reject_amount_exceeding_balance (db : DB) (customerId : ℕ)
    (customer : CustomerRow) (amount : Money) (paymentType : String)
    (auditOk : ℕ → Bool) (maxConn pool : ℕ)
    (hfind : findCustomer db customerId = some customer)
    (hpos : 0 < amount)
    (hgt : customer.current_balance < amount) :
    cpProcessGeneralPayment db customerId customer.current_balance amount
      paymentType auditOk =
      .error (.http 400 "Payment amount exceeds outstanding balance") ∧
    cmProcessGeneralCreditPayment db customer amount =
      .error (.http 400 "Payment amount exceeds customer's outstanding balance") ∧
    processCustomerPayment db customerId amount [] paymentType auditOk =
      .error (.http 400 "Payment amount exceeds outstanding balance") ∧
    (withCursor maxConn ⟨db, pool⟩ fun d =>
      processCustomerPayment d customerId amount [] paymentType auditOk).1.db
      = db := by
  have h1 : cpProcessGeneralPayment db customerId customer.current_balance
      amount paymentType auditOk =
      .error (.http 400 "Payment amount exceeds outstanding balance") := by
    rw [cpProcessGeneralPayment, if_pos hgt]
  have h3 : processCustomerPayment db customerId amount [] paymentType
      auditOk =
      .error (.http 400 "Payment amount exceeds outstanding balance") := by
    rw [processCustomerPayment, hfind]
    simp only [if_neg (not_le.mpr hpos), List.isEmpty_nil, if_true]
    exact h1
  refine ⟨h1, ?_, h3, ?_⟩
  · rw [cmProcessGeneralCreditPayment, if_pos hgt]
  · exact (withCursor_error_state maxConn ⟨db, pool⟩ _ h3).1

/-- Witness for C4: a payment of 200 against a recorded balance of 150. -/
theorem c4_reject_amount_exceeding_balance_witness :
    cpProcessGeneralPayment exDbA 1 150 200 "credit_payment"
      (fun _ => true) =
      .error (.http 400 "Payment amount exceeds outstanding balance") ∧
    cmProcessGeneralCreditPayment exDbA ⟨1, 150⟩ 200 =
      .error (.http 400 "Payment amount exceeds customer's outstanding balance") ∧
    processCustomerPayment exDbA 1 200 [] "credit_payment" (fun _ => true) =
      .error (.http 400 "Payment amount exceeds outstanding balance") ∧
    (withCursor 10 ⟨exDbA, 3⟩ fun d =>
      processCustomerPayment d 1 200 [] "credit_payment" fun _ => true).1.db
      = exDbA :=
  c4_reject_amount_exceeding_balance exDbA 1 ⟨1, 150⟩ 200 "credit_payment"
    (fun _ => true) 10 3
    (by norm_num [findCustomer, exDbA, List.find?]) (by norm_num)
    (by norm_num)

/-- C6: the cursor-scoped unit of work is atomic: a body that raises leaves
the database exactly as it was and propagates the error, a body that
succeeds commits exactly its writes and returns its value, and on both
paths the connection is handed back (the pool is restored whenever it was
within bounds at acquisition). -/
theorem c6_unit_of_work_atomic {α : Type} (maxConn : ℕ) (st : SysState)
    (body : DB → Except ApiError (DB × α)) :
    (∀ e, body st.db = .error e →
      withCursor maxConn st body =
        (⟨st.db, returnConn (st.pool - 1) maxConn⟩, .error e)) ∧
    (∀ db' a, body st.db = .ok (db', a) →
      withCursor maxConn st body =
        (⟨db', returnConn (st.pool - 1) maxConn⟩, .ok a)) ∧
    (withCursor maxConn st body).1.pool = returnConn (st.pool - 1) maxConn ∧
    (0 < st.pool → st.pool ≤ maxConn →
      (withCursor maxConn st body).1.pool = st.pool) := by
  have hpool : (withCursor maxConn st body).1.pool =
      returnConn (st.pool - 1) maxConn := by
    unfold withCursor
    cases body st.db with
    | ok p => rfl
    | error e => rfl
  refine ⟨?_, ?_, hpool, ?_⟩
  · intro e h
    unfold withCursor
    rw [h]
  · intro db' a h
    unfold withCursor
    rw [h]
  · intro h0 hle
    rw [hpool]
    unfold returnConn
    have h1 : st.pool - 1 < maxConn := by omega
    rw [if_pos h1]
    omega

/-- Witness for C6: a failing payment body (amount 200 over balance 150)
rolls back to the original database, propagates the 400 error, and restores
the pool. -/
theorem c6_unit_of_work_atomic_witness :
    withCursor 10 ⟨exDbA, 3⟩ (fun d =>
      processCustomerPayment d 1 200 [] "credit_payment" fun _ => true) =
      (⟨exDbA, returnConn (3 - 1) 10⟩,
       .error (.http 400 "Payment amount exceeds outstanding balance")) :=
  (c6_unit_of_work_atomic 10 ⟨exDbA, 3⟩ fun d =>
      processCustomerPayment d 1 200 [] "credit_payment" fun _ => true).1
    (.http 400 "Payment amount exceeds outstanding balance")
    (by norm_num [processCustomerPayment, findCustomer, exDbA, List.find?,
      cpProcessGeneralPayment])

/-- C7: a failing `sale_payments` (Allocation) insert is swallowed: with the
audit table present, a run whose allocation inserts fail (any `auditOk`)
errors exactly when the run with all inserts succeeding errors, returns the
same response, and leaves identical sales, customer and payment tables —
only the `sale_payments` table differs, holding exactly the allocation rows
whose insert succeeded, so the audit trail may be incomplete while the
payment and balance changes stand.  This covers both `customer_payments.py`
paths, the only ones that write allocations. -/
theorem c7_audit_write_failure_swallowed (db : DB) (cid : ℕ) (cb amt : Money)
    (pt : String) (f : ℕ → Bool) (ids : List ℕ)
    (htable : db.has_sale_payments_table = true) :
    (∀ e, cpProcessGeneralPayment db cid cb amt pt f = .error e ↔
      cpProcessGeneralPayment db cid cb amt pt (fun _ => true) = .error e) ∧
    (∀ dbF rF dbT rT,
      cpProcessGeneralPayment db cid cb amt pt f = .ok (dbF, rF) →
      cpProcessGeneralPayment db cid cb amt pt (fun _ => true) = .ok (dbT, rT) →
      rF = rT ∧ dbF.sales = dbT.sales ∧ dbF.customers = dbT.customers ∧
      dbF.customer_payments = dbT.customer_payments ∧
      dbT.sale_payments = db.sale_payments ++
        rT.updated_sales.map (fun u => ⟨u.sale_id, rT.payment_id,
          u.amount_applied⟩) ∧
      dbF.sale_payments = db.sale_payments ++
        allocationsFor rF.payment_id rF.updated_sales f) ∧
    (∀ e, cpProcessSpecificSalesPayment db cid cb ids f = .error e ↔
      cpProcessSpecificSalesPayment db cid cb ids (fun _ => true) = .error e) ∧
    (∀ dbF rF dbT rT,
      cpProcessSpecificSalesPayment db cid cb ids f = .ok (dbF, rF) →
      cpProcessSpecificSalesPayment db cid cb ids (fun _ => true) =
        .ok (dbT, rT) →
      rF = rT ∧ dbF.sales = dbT.sales ∧ dbF.customers = dbT.customers ∧
      dbF.customer_payments = dbT.customer_payments ∧
      dbT.sale_payments = db.sale_payments ++
        rT.updated_sales.map (fun u => ⟨u.sale_id, rT.payment_id,
          u.amount_applied⟩) ∧
      dbF.sale_payments = db.sale_payments ++
        allocationsFor rF.payment_id rF.updated_sales f) := by
  have hallocT : ∀ (payId : ℕ) (upds : List UpdatedSale),
      allocationsFor payId upds (fun _ => true) =
        upds.map fun u => ⟨u.sale_id, payId, u.amount_applied⟩ := by
    intro payId upds
    unfold allocationsFor
    rw [List.filter_true]
  refine ⟨?_, ?_, ?_, ?_⟩
  · intro e
    rw [cpProcessGeneralPayment, cpProcessGeneralPayment]
    by_cases hc : cb < amt
    · rw [if_pos hc, if_pos hc]
    · rw [if_neg hc, if_neg hc]
      constructor <;> intro h <;> exact Except.noConfusion h
  · intro dbF rF dbT rT hF hT
    rw [cpProcessGeneralPayment] at hF hT
    by_cases hc : cb < amt
    · rw [if_pos hc] at hF
      exact Except.noConfusion hF
    · rw [if_neg hc] at hF hT
      simp only [Except.ok.injEq, Prod.mk.injEq] at hF hT
      obtain ⟨hFdb, hFr⟩ := hF
      obtain ⟨hTdb, hTr⟩ := hT
      subst hFdb hFr hTdb hTr
      refine ⟨rfl, rfl, rfl, rfl, ?_, ?_⟩
      · show (if db.has_sale_payments_table then
          db.sale_payments ++ allocationsFor (db.customer_payments.length + 1)
            (cpGeneralLoop amt (cpGeneralCandidates db cid)
              db.sales).updated_sales (fun _ => true)
          else db.sale_payments) = _
        rw [htable, if_pos rfl, hallocT]
      · show (if db.has_sale_payments_table then
          db.sale_payments ++ allocationsFor (db.customer_payments.length + 1)
            (cpGeneralLoop amt (cpGeneralCandidates db cid)
              db.sales).updated_sales f
          else db.sale_payments) = _
        rw [htable, if_pos rfl]
  · intro e
    simp only [cpProcessSpecificSalesPayment]
    split
    · exact Iff.rfl
    · split
      · exact Iff.rfl
      · split
        · exact Iff.rfl
        · constructor <;> intro h <;> exact Except.noConfusion h
  · intro dbF rF dbT rT hF hT
    simp only [cpProcessSpecificSalesPayment] at hF hT
    by_cases hlen : (selectedSales db cid ids).length ≠ ids.length
    · simp only [if_pos hlen] at hF
      exact Except.noConfusion hF
    · simp only [if_neg hlen] at hF hT
      rcases htot : totalPaymentForSales (selectedSales db cid ids) with e | t
      · simp only [htot] at hF
        exact Except.noConfusion hF
      · simp only [htot] at hF hT
        by_cases hcb : cb < t
        · simp only [if_pos hcb] at hF
          exact Except.noConfusion hF
        · simp only [if_neg hcb] at hF hT
          simp only [Except.ok.injEq, Prod.mk.injEq] at hF hT
          obtain ⟨hFdb, hFr⟩ := hF
          obtain ⟨hTdb, hTr⟩ := hT
          subst hFdb hFr hTdb hTr
          refine ⟨rfl, rfl, rfl, rfl, ?_, ?_⟩
          · show (if db.has_sale_payments_table then
              db.sale_payments ++ allocationsFor
                (db.customer_payments.length + 1)
                (cpSettleLoop (selectedSales db cid ids) db.sales).2
                (fun _ => true)
              else db.sale_payments) = _
            rw [htable, if_pos rfl, hallocT]
          · show (if db.has_sale_payments_table then
              db.sale_payments ++ allocationsFor
                (db.customer_payments.length + 1)
                (cpSettleLoop (selectedSales db cid ids) db.sales).2 f
              else db.sale_payments) = _
            rw [htable, if_pos rfl]

/-- Witness for C7 on the audit-table database `exDbC`, with an `auditOk`
that fails on sale 1: the error behaviour is unchanged (here, the
balance-exceeded rejection of a 200 payment). -/
theorem c7_audit_write_failure_swallowed_witness :
    cpProcessGeneralPayment exDbC 1 150 200 "credit_payment"
      (fun sid => sid != 1) =
      .error (.http 400 "Payment amount exceeds outstanding balance") ↔
    cpProcessGeneralPayment exDbC 1 150 200 "credit_payment"
      (fun _ => true) =
      .error (.http 400 "Payment amount exceeds outstanding balance") :=
  (c7_audit_write_failure_swallowed exDbC 1 150 200 "credit_payment"
    (fun sid => sid != 1) [] rfl).1
    (.http 400 "Payment amount exceeds outstanding balance")

/-! Lemmas for the reconciliation endpoint. -/

theorem updateCustomerBalance_map_id (custs : List CustomerRow) (cid : ℕ)
    (nb : Money) :
    (updateCustomerBalance custs cid nb).map (fun c => c.id) =
      custs.map fun c => c.id := by
  unfold updateCustomerBalance
  rw [List.map_map]
  apply List.map_congr_left
  intro c _
  by_cases hc : c.id = cid
  · simp [hc]
  · simp [hc]

theorem find?_updateCustomerBalance_eq : ∀ (custs : List CustomerRow)
    (cid : ℕ) (nb : Money),
    (updateCustomerBalance custs cid nb).find? (fun c => c.id == cid) =
      (custs.find? fun c => c.id == cid).map
        fun c => { c with current_balance := nb }
  | [], cid, nb => rfl
  | c :: rest, cid, nb => by
    unfold updateCustomerBalance
    rw [List.map_cons]
    by_cases hc : c.id = cid
    · rw [if_pos hc]
      rw [List.find?_cons_of_pos _ (by simp [hc]),
        List.find?_cons_of_pos _ (by simp [hc])]
      rfl
    · rw [if_neg hc]
      rw [List.find?_cons_of_neg _ (by simp [hc]),
        List.find?_cons_of_neg _ (by simp [hc])]
      exact find?_updateCustomerBalance_eq rest cid nb

theorem find?_updateCustomerBalance_ne : ∀ (custs : List CustomerRow)
    (cid cid' : ℕ) (nb : Money), cid' ≠ cid →
    (updateCustomerBalance custs cid nb).find? (fun c => c.id == cid') =
      custs.find? fun c => c.id == cid'
  | [], cid, cid', nb, _ => rfl
  | c :: rest, cid, cid', nb, hne => by
    unfold updateCustomerBalance
    rw [List.map_cons]
    by_cases hc : c.id = cid
    · rw [if_pos hc]
      have hid : ¬ c.id = cid' := fun h => hne (by rw [← h]; exact hc)
      rw [List.find?_cons_of_neg]
      · rw [List.find?_cons_of_neg]
        · exact find?_updateCustomerBalance_ne rest cid cid' nb hne
        · simpa using hid
      · simpa using hid
    · rw [if_neg hc]
      by_cases hp : (c.id == cid') = true
      · rw [List.find?_cons_of_pos, List.find?_cons_of_pos]
        · exact hp
        · exact hp
      · rw [List.find?_cons_of_neg, List.find?_cons_of_neg]
        · exact find?_updateCustomerBalance_ne rest cid cid' nb hne
        · exact hp
        · exact hp

theorem reconcileStep_fields (db : DB) (cid : ℕ) :
    (reconcileStep db cid).1.sales = db.sales ∧
    (reconcileStep db cid).1.customer_payments = db.customer_payments ∧
    (reconcileStep db cid).1.sale_payments = db.sale_payments ∧
    (reconcileStep db cid).1.has_sale_payments_table =
      db.has_sale_payments_table ∧
    (reconcileStep db cid).1.customers.map (fun c => c.id) =
      db.customers.map fun c => c.id := by
  simp only [reconcileStep]
  split
  · exact ⟨rfl, rfl, rfl, rfl, updateCustomerBalance_map_id _ _ _⟩
  · exact ⟨rfl, rfl, rfl, rfl, rfl⟩

theorem reconcileStep_of_close {db : DB} {cid : ℕ} (h : reconClose db cid) :
    reconcileStep db cid = (db, false) := by
  unfold reconClose at h
  simp only [reconcileStep]
  rw [if_neg (not_lt.mpr h)]

theorem reconcileStep_close {db : DB} {cid : ℕ}
    (hrow : cid ∈ db.customers.map fun c => c.id) :
    reconClose (reconcileStep db cid).1 cid := by
  have hsome : ∃ c ∈ db.customers, (fun c => c.id == cid) c = true := by
    obtain ⟨c, hc, hcid⟩ := List.mem_map.mp hrow
    exact ⟨c, hc, by simp [hcid]⟩
  obtain ⟨c, hfind⟩ := Option.isSome_iff_exists.mp
    (List.find?_isSome.mpr hsome)
  simp only [reconcileStep]
  split
  · unfold reconClose
    show |((db.sales.filter fun s => s.customer_id == some cid &&
        isOutstanding s).map (fun s => s.balance_due)).sum -
      (((updateCustomerBalance db.customers cid
        (((db.sales.filter fun s => s.customer_id == some cid &&
          isOutstanding s).map (fun s => s.balance_due)).sum)).find?
          (fun c => c.id == cid)).map
         (fun c => c.current_balance)).getD 0| ≤ 1/100
    rw [find?_updateCustomerBalance_eq, hfind]
    simp only [Option.map_map, Option.map_some', Option.getD_some]
    show |_ - (((db.sales.filter fun s => s.customer_id == some cid &&
        isOutstanding s).map (fun s => s.balance_due)).sum : ℚ)| ≤ 1/100
    rw [sub_self, abs_zero]
    norm_num
  · next hif =>
    unfold reconClose
    exact not_lt.mp hif

theorem reconcileStep_preserve {db : DB} {c₀ : ℕ}
    (hrow : c₀ ∈ db.customers.map fun c => c.id) {cid : ℕ}
    (hclose : reconClose db cid) :
    reconClose (reconcileStep db c₀).1 cid := by
  by_cases he : cid = c₀
  · subst he
    exact reconcileStep_close hrow
  · simp only [reconcileStep]
    split
    · unfold reconClose at hclose ⊢
      unfold findCustomer at hclose
      show |((db.sales.filter fun s => s.customer_id == some cid &&
          isOutstanding s).map (fun s => s.balance_due)).sum -
        (((updateCustomerBalance db.customers c₀
          (((db.sales.filter fun s => s.customer_id == some c₀ &&
            isOutstanding s).map (fun s => s.balance_due)).sum)).find?
            (fun c => c.id == cid)).map
           (fun c => c.current_balance)).getD 0| ≤ 1/100
      rw [find?_updateCustomerBalance_ne _ _ _ _ he]
      exact hclose
    · exact hclose

theorem reconcileLoop_fields : ∀ (ids : List ℕ) (db : DB) (n : ℕ),
    (reconcileLoop ids (db, n)).1.sales = db.sales ∧
    (reconcileLoop ids (db, n)).1.customer_payments = db.customer_payments ∧
    (reconcileLoop ids (db, n)).1.sale_payments = db.sale_payments ∧
    (reconcileLoop ids (db, n)).1.has_sale_payments_table =
      db.has_sale_payments_table ∧
    (reconcileLoop ids (db, n)).1.customers.map (fun c => c.id) =
      db.customers.map fun c => c.id
  | [], db, n => ⟨rfl, rfl, rfl, rfl, rfl⟩
  | cid :: rest, db, n => by
    have hstep := reconcileStep_fields db cid
    have ih := reconcileLoop_fields rest (reconcileStep db cid).1
      (n + if (reconcileStep db cid).2 then 1 else 0)
    rw [reconcileLoop]
    exact ⟨ih.1.trans hstep.1, ih.2.1.trans hstep.2.1,
      ih.2.2.1.trans hstep.2.2.1, ih.2.2.2.1.trans hstep.2.2.2.1,
      ih.2.2.2.2.trans hstep.2.2.2.2⟩

theorem reconcileLoop_close : ∀ (ids : List ℕ) (db : DB) (n : ℕ),
    (∀ c ∈ ids, c ∈ db.customers.map fun x => x.id) →
    (∀ cid, reconClose db cid →
      reconClose (reconcileLoop ids (db, n)).1 cid) ∧
    (∀ cid ∈ ids, reconClose (reconcileLoop ids (db, n)).1 cid)
  | [], db, n, _ => ⟨fun _ h => h, fun _ h => absurd h (List.not_mem_nil _)⟩
  | c₀ :: rest, db, n, hrows => by
    have hrow0 : c₀ ∈ db.customers.map fun x => x.id :=
      hrows c₀ (List.mem_cons_self _ _)
    have hrows' : ∀ c ∈ rest,
        c ∈ (reconcileStep db c₀).1.customers.map fun x => x.id := by
      intro c hc
      rw [(reconcileStep_fields db c₀).2.2.2.2]
      exact hrows c (List.mem_cons_of_mem _ hc)
    have ih := reconcileLoop_close rest (reconcileStep db c₀).1
      (n + if (reconcileStep db c₀).2 then 1 else 0) hrows'
    rw [reconcileLoop]
    constructor
    · intro cid hclose
      exact ih.1 cid (reconcileStep_preserve hrow0 hclose)
    · intro cid hcid
      rcases List.mem_cons.mp hcid with rfl | hcid'
      · exact ih.1 cid (reconcileStep_close hrow0)
      · exact ih.2 cid hcid'

theorem reconcileLoop_of_close : ∀ (ids : List ℕ) (db : DB) (n : ℕ),
    (∀ cid ∈ ids, reconClose db cid) → reconcileLoop ids (db, n) = (db, n)
  | [], db, n, _ => rfl
  | c₀ :: rest, db, n, hclose => by
    rw [reconcileLoop]
    rw [show reconcileStep db c₀ = (db, false) from
      reconcileStep_of_close (hclose c₀ (List.mem_cons_self _ _))]
    show reconcileLoop rest (db, n + 0) = (db, n)
    rw [Nat.add_zero]
    exact reconcileLoop_of_close rest db n
      fun cid hc => hclose cid (List.mem_cons_of_mem _ hc)

/-- C8: reconciliation touches only customer balances (the sales, payment
and allocation tables are returned unchanged), and it is idempotent:
running it again immediately on its own output corrects zero customers and
changes nothing. -/
theorem c8_reconcile_idempotent (db : DB) :
    (reconcileCustomerBalances db).1.sales = db.sales ∧
    (reconcileCustomerBalances db).1.customer_payments =
      db.customer_payments ∧
    (reconcileCustomerBalances db).1.sale_payments = db.sale_payments ∧
    reconcileCustomerBalances (reconcileCustomerBalances db).1 =
      ((reconcileCustomerBalances db).1, 0) := by
  have hfields := reconcileLoop_fields (db.customers.map fun c => c.id) db 0
  refine ⟨hfields.1, hfields.2.1, hfields.2.2.1, ?_⟩
  have hclose := (reconcileLoop_close (db.customers.map fun c => c.id) db 0
    fun c hc => hc).2
  unfold reconcileCustomerBalances
  rw [hfields.2.2.2.2]
  exact reconcileLoop_of_close _ _ 0 hclose

theorem cpGeneralLoop_updated_2dp : ∀ (cands : List SaleRow) (rem : Money)
    (sales : List SaleRow),
    ∀ u ∈ (cpGeneralLoop rem cands sales).updated_sales, is2dp u.new_balance
  | [], rem, sales, u, hu => by cases hu
  | c :: rest, rem, sales, u, hu => by
    by_cases h : rem ≤ 0
    · rw [cpGeneralLoop, if_pos h] at hu
      cases hu
    · rw [cpGeneralLoop, if_neg h] at hu
      rcases List.mem_cons.mp hu with rfl | hu'
      · exact is2dp_round2 _
      · exact cpGeneralLoop_updated_2dp rest _ _ u hu'

/-- C9 counterexample: the `credit_management.py` general path performs no
rounding after its subtractions.  With a pending invoice whose balance is
0.015 and a payment of 0.001, the invoice's balance becomes exactly
0.014 = 7/500, which is not a two-decimal amount (rounding it would give
0.01), so intermediate balances are NOT rounded to 2 decimals in every
payment path. -/
theorem c9_rounding_counterexample :
    runUpdatedBalances (cmProcessGeneralCreditPayment exDbSubCent
      ⟨1, 3/200⟩ (1/1000)) = [7/500] ∧
    ¬ is2dp ((7 : ℚ)/500) ∧
    round2 ((7 : ℚ)/500) ≠ (7 : ℚ)/500 := by
  refine ⟨?_, ?_, ?_⟩
  · norm_num [cmProcessGeneralCreditPayment, exDbSubCent,
      cmGeneralCandidates, outstandingSalesOf, isOutstanding,
      List.insertionSort, List.orderedInsert, cmApplyLoop, saleBalance,
      updateSaleRow, updateCustomerBalance, runUpdatedBalances, min_def,
      createdIdLe]
  · norm_num [is2dp, Rat.den]
  · unfold round2
    rw [show ((7 : ℚ)/500 * 100) = 7/5 by norm_num, round_eq]
    norm_num

/-- C9 amended: only the `customer_payments.py` general path rounds each
intermediate invoice balance to 2 decimals immediately after the
subtraction: every `new_balance` it reports is a whole number of cents.
The `credit_management.py` paths subtract exactly, without rounding (the
counterexample exhibits a resulting sub-cent balance). -/
theorem c9_amended_rounding (db : DB) (cid : ℕ) (cb amt : Money)
    (pt : String) (f : ℕ → Bool) :
    ∀ b ∈ runUpdatedBalances (cpProcessGeneralPayment db cid cb amt pt f),
      is2dp b := by
  intro b hb
  rw [cpProcessGeneralPayment] at hb
  by_cases hc : cb < amt
  · rw [if_pos hc] at hb
    simp only [runUpdatedBalances] at hb
    cases hb
  · rw [if_neg hc] at hb
    simp only [runUpdatedBalances] at hb
    obtain ⟨u, hu, rfl⟩ := List.mem_map.mp hb
    exact cpGeneralLoop_updated_2dp _ amt db.sales u hu

/-- Witness for the amended C9: the partial balance 30 left on invoice 2 by
the 120 payment of the spec §8 scenario is a whole number of cents. -/
theorem c9_amended_rounding_witness : is2dp ((30 : ℚ)) :=
  c9_amended_rounding exDbA 1 150 120 "credit_payment" (fun _ => true) 30
    (by norm_num [cpProcessGeneralPayment, exDbA, cpGeneralCandidates,
      outstandingSalesOf, isOutstanding, List.insertionSort,
      List.orderedInsert, cpGeneralLoop, saleBalance, round2, round_eq,
      updateSaleRow, updateCustomerBalance, allocationsFor,
      runUpdatedBalances, min_def, createdLe])

theorem totalPaymentForSales_ok : ∀ {l : List SaleRow} {t : Money},
    totalPaymentForSales l = .ok t → t = (l.map saleBalance).sum
  | [], t, h => by
    rw [totalPaymentForSales] at h
    simp only [Except.ok.injEq] at h
    rw [← h, List.map_nil, List.sum_nil]
  | s :: rest, t, h => by
    rw [totalPaymentForSales] at h
    by_cases hp : s.payment_status = .paid
    · rw [if_pos hp] at h
      exact Except.noConfusion h
    · rw [if_neg hp] at h
      rcases htot : totalPaymentForSales rest with e | t'
      · rw [htot] at h
        exact Except.noConfusion h
      · rw [htot] at h
        simp only [Except.ok.injEq] at h
        rw [← h, List.map_cons, List.sum_cons,
          totalPaymentForSales_ok htot]

theorem cpSettleLoop_map : ∀ (cands : List SaleRow) (sales : List SaleRow),
    (cpSettleLoop cands sales).1 = sales.map fun s =>
      if s.id ∈ (cands.map fun c => c.id) then
        { s with balance_due := 0, payment_status := .paid } else s
  | [], sales => by
    show sales = sales.map fun s =>
      if s.id ∈ (([] : List SaleRow).map fun c => c.id) then
        { s with balance_due := 0, payment_status := .paid } else s
    simp
  | c :: rest, sales => by
    have ih := cpSettleLoop_map rest (updateSaleRow sales c.id 0 .paid)
    show (cpSettleLoop rest (updateSaleRow sales c.id 0 .paid)).1 = _
    rw [ih]
    unfold updateSaleRow
    rw [List.map_map]
    apply List.map_congr_left
    intro s _
    rw [Function.comp_apply]
    by_cases hs : s.id = c.id
    · rw [if_pos hs]
      rw [if_pos (show s.id ∈ (c :: rest).map (fun c => c.id) by
        rw [List.map_cons]
        exact List.mem_cons.mpr (Or.inl hs))]
      split <;> rfl
    · rw [if_neg hs]
      by_cases h2 : s.id ∈ rest.map fun c => c.id
      · rw [if_pos h2, if_pos (show s.id ∈ (c :: rest).map (fun c => c.id) by
          rw [List.map_cons]
          exact List.mem_cons_of_mem _ h2)]
      · rw [if_neg h2, if_neg (show ¬ s.id ∈ (c :: rest).map
            (fun c => c.id) by
          rw [List.map_cons]
          intro hmem
          rcases List.mem_cons.mp hmem with h3 | h3
          · exact hs h3
          · exact h2 h3)]

/-- C10: the `customer_payments.py` targeted path ignores the supplied
amount entirely: two valid requests that differ only in amount (and payment
type) produce identical outcomes; the payment actually recorded is the sum
of the selected sales' outstanding balances (`balance_due`, falling back to
`grand_total` when zero or unset), and every selected sale is settled in
full (`balance_due = 0`, status `paid`). -/
theorem c10_specific_path_ignores_amount (db : DB) (cid : ℕ) (a₁ a₂ : Money)
    (ids : List ℕ) (pt₁ pt₂ : String) (f : ℕ → Bool)
    (hids : ids ≠ []) (h₁ : 0 < a₁) (h₂ : 0 < a₂) :
    processCustomerPayment db cid a₁ ids pt₁ f =
      processCustomerPayment db cid a₂ ids pt₂ f ∧
    (∀ db' r, processCustomerPayment db cid a₁ ids pt₁ f = .ok (db', r) →
      db'.customer_payments = db.customer_payments ++
        [⟨cid, ((selectedSales db cid ids).map saleBalance).sum,
          "specific_sales_payment"⟩] ∧
      r.paid_sales = ids ∧
      (∀ u ∈ r.updated_sales, u.new_balance = 0 ∧ u.new_status = .paid) ∧
      (∀ s' ∈ db'.sales, s'.id ∈ ids → s'.customer_id = some cid →
        s'.balance_due = 0 ∧ s'.payment_status = .paid)) := by
  obtain ⟨x, t, rfl⟩ : ∃ x t, ids = x :: t := by
    cases ids with
    | nil => exact absurd rfl hids
    | cons x t => exact ⟨x, t, rfl⟩
  constructor
  · rw [processCustomerPayment, processCustomerPayment]
    cases hf : findCustomer db cid with
    | none => rfl
    | some customer =>
      simp only [if_neg (not_le.mpr h₁), if_neg (not_le.mpr h₂),
        List.isEmpty_cons]
      rfl
  · intro db' r hrun
    rw [processCustomerPayment] at hrun
    cases hf : findCustomer db cid with
    | none =>
      rw [hf] at hrun
      exact Except.noConfusion hrun
    | some customer =>
      rw [hf] at hrun
      simp only [if_neg (not_le.mpr h₁), List.isEmpty_cons] at hrun
      rw [if_neg (by simp : ¬ (false = true))] at hrun
      simp only [cpProcessSpecificSalesPayment] at hrun
      by_cases hlen : (selectedSales db cid (x :: t)).length ≠
          (x :: t).length
      · simp only [if_pos hlen] at hrun
        exact Except.noConfusion hrun
      · simp only [if_neg hlen] at hrun
        rcases htot : totalPaymentForSales (selectedSales db cid (x :: t))
          with e | tp
        · simp only [htot] at hrun
          exact Except.noConfusion hrun
        · simp only [htot] at hrun
          by_cases hcb : customer.current_balance < tp
          · simp only [if_pos hcb] at hrun
            exact Except.noConfusion hrun
          · simp only [if_neg hcb] at hrun
            simp only [Except.ok.injEq, Prod.mk.injEq] at hrun
            obtain ⟨hdb, hr⟩ := hrun
            subst hdb hr
            refine ⟨?_, rfl, ?_, ?_⟩
            · show db.customer_payments ++ [⟨cid, tp,
                "specific_sales_payment"⟩] = _
              rw [totalPaymentForSales_ok htot]
            · intro u hu
              obtain ⟨c, _, _, h0, hp⟩ :=
                cpSettleLoop_updated _ db.sales u hu
              exact ⟨h0, hp⟩
            · intro s' hs' hid hcust
              show _ ∧ _
              have hmap : (cpSettleLoop (selectedSales db cid (x :: t))
                  db.sales).1 = _ := cpSettleLoop_map _ db.sales
              rw [hmap] at hs'
              obtain ⟨s, hs, rfl⟩ := List.mem_map.mp hs'
              by_cases hmem : s.id ∈ (selectedSales db cid (x :: t)).map
                  fun c => c.id
              · rw [if_pos hmem]
                exact ⟨rfl, rfl⟩
              · exfalso
                apply hmem
                rw [if_neg hmem] at hid hcust
                exact List.mem_map_of_mem (fun c => c.id)
                  (mem_selectedSales.mpr ⟨hs, hid, hcust⟩)

/-- Witness for C10: amounts 5 and 77 (and different payment types) give
identical runs on the spec §8 scenario when sales 1 and 2 are selected. -/
theorem c10_specific_path_ignores_amount_witness :
    processCustomerPayment exDbA 1 5 [1, 2] "credit_payment"
        (fun _ => true) =
      processCustomerPayment exDbA 1 77 [1, 2] "other" (fun _ => true) ∧
    (∀ db' r, processCustomerPayment exDbA 1 5 [1, 2] "credit_payment"
        (fun _ => true) = .ok (db', r) →
      db'.customer_payments = exDbA.customer_payments ++
        [⟨1, ((selectedSales exDbA 1 [1, 2]).map saleBalance).sum,
          "specific_sales_payment"⟩] ∧
      r.paid_sales = [1, 2] ∧
      (∀ u ∈ r.updated_sales, u.new_balance = 0 ∧ u.new_status = .paid) ∧
      (∀ s' ∈ db'.sales, s'.id ∈ [1, 2] → s'.customer_id = some 1 →
        s'.balance_due = 0 ∧ s'.payment_status = .paid)) :=
  c10_specific_path_ignores_amount exDbA 1 5 77 [1, 2] "credit_payment"
    "other" (fun _ => true) (by decide) (by norm_num) (by norm_num)

theorem totalPaymentForSales_error_of_paid : ∀ {l : List SaleRow},
    (∃ s ∈ l, s.payment_status = .paid) →
    totalPaymentForSales l = .error (.http 400 "Sale is already paid")
  | [], h => absurd h (by simp)
  | s :: rest, h => by
    rw [totalPaymentForSales]
    by_cases hp : s.payment_status = .paid
    · rw [if_pos hp]
    · rw [if_neg hp]
      obtain ⟨x, hx, hxp⟩ := h
      rcases List.mem_cons.mp hx with rfl | hx'
      · exact absurd hxp hp
      · rw [totalPaymentForSales_error_of_paid ⟨x, hx', hxp⟩]

/-- C5 counterexample: in the `credit_management.py` targeted path, a
requested invoice that is already `paid` does NOT make the operation fail.
On a database whose only sale (id 1, grand total 100) is already paid with
balance 0, requesting payment of 50 against sale 1 succeeds, and the paid
sale is re-charged through the `grand_total` fallback: its status becomes
`partial` with balance 50. -/
theorem c5_targeted_validation_counterexample :
    (∃ s ∈ selectedSales exDbPaid 1 [1], s.payment_status = .paid) ∧
    runIsOk (cmProcessSpecificSalesPayment exDbPaid ⟨1, 0⟩ [1] 50) = true ∧
    runSaleStatus (cmProcessSpecificSalesPayment exDbPaid ⟨1, 0⟩ [1] 50) 1 =
      .partPaid ∧
    runSaleBalance (cmProcessSpecificSalesPayment exDbPaid ⟨1, 0⟩ [1] 50) 1 =
      50 := by
  refine ⟨⟨⟨1, some 1, 100, 0, .paid, 0⟩, ?_, rfl⟩, ?_, ?_, ?_⟩
  · norm_num [selectedSales, exDbPaid]
  · norm_num [cmProcessSpecificSalesPayment, exDbPaid, selectedSales,
      saleBalance, List.insertionSort, List.orderedInsert, idLe,
      cmApplyLoop, updateSaleRow, updateCustomerBalance, runIsOk, min_def]
  · norm_num [cmProcessSpecificSalesPayment, exDbPaid, selectedSales,
      saleBalance, List.insertionSort, List.orderedInsert, idLe,
      cmApplyLoop, updateSaleRow, updateCustomerBalance, runSaleStatus,
      List.find?, min_def]
  · norm_num [cmProcessSpecificSalesPayment, exDbPaid, selectedSales,
      saleBalance, List.insertionSort, List.orderedInsert, idLe,
      cmApplyLoop, updateSaleRow, updateCustomerBalance, runSaleBalance,
      List.find?, min_def]

/-- C5 amended: a targeted payment whose requested ids include a missing or
not-owned invoice fails with the ownership validation error in BOTH entry
points, mutating nothing (the error returns before any write, and the
transaction scope hands back the original database); an already-paid
invoice aborts the run only in the `customer_payments.py` path — the
`credit_management.py` path performs no such check and accepts it (see the
counterexample). -/
theorem c5_amended_targeted_validation (db : DB) (cid : ℕ) (cb : Money)
    (customer : CustomerRow) (ids : List ℕ) (amt : Money) (f : ℕ → Bool)
    (maxConn pool : ℕ) :
    ((selectedSales db cid ids).length ≠ ids.length →
      cpProcessSpecificSalesPayment db cid cb ids f =
        .error (.http 400
          "One or more sales not found or do not belong to this customer")) ∧
    ((selectedSales db customer.id ids).length ≠ ids.length →
      cmProcessSpecificSalesPayment db customer ids amt =
        .error (.http 400
          "One or more sales not found or do not belong to this customer")) ∧
    ((selectedSales db cid ids).length = ids.length →
      (∃ s ∈ selectedSales db cid ids, s.payment_status = .paid) →
      cpProcessSpecificSalesPayment db cid cb ids f =
        .error (.http 400 "Sale is already paid")) ∧
    ((selectedSales db cid ids).length ≠ ids.length →
      (withCursor maxConn ⟨db, pool⟩ fun d =>
        cpProcessSpecificSalesPayment d cid cb ids f).1.db = db) := by
  have h1 : (selectedSales db cid ids).length ≠ ids.length →
      cpProcessSpecificSalesPayment db cid cb ids f =
        .error (.http 400
          "One or more sales not found or do not belong to this customer") := by
    intro h
    simp only [cpProcessSpecificSalesPayment]
    rw [if_pos h]
  refine ⟨h1, ?_, ?_, ?_⟩
  · intro h
    simp only [cmProcessSpecificSalesPayment]
    rw [if_pos h]
  · intro hlen hpaid
    simp only [cpProcessSpecificSalesPayment]
    rw [if_neg (by simp [hlen])]
    simp only [totalPaymentForSales_error_of_paid hpaid]
  · intro h
    exact (withCursor_error_state maxConn ⟨db, pool⟩ _ (h1 h)).1

/-- Witness for the amended C5: requesting the missing sale 99 fails with
the ownership error in both entry points and leaves the database untouched,
and requesting the already-paid sale 1 fails in the `customer_payments.py`
path with the already-paid error. -/
theorem c5_amended_targeted_validation_witness :
    cpProcessSpecificSalesPayment exDbPaid 1 0 [99] (fun _ => true) =
      .error (.http 400
        "One or more sales not found or do not belong to this customer") ∧
    cmProcessSpecificSalesPayment exDbPaid ⟨1, 0⟩ [99] 50 =
      .error (.http 400
        "One or more sales not found or do not belong to this customer") ∧
    cpProcessSpecificSalesPayment exDbPaid 1 0 [1] (fun _ => true) =
      .error (.http 400 "Sale is already paid") ∧
    (withCursor 10 ⟨exDbPaid, 3⟩ fun d =>
      cpProcessSpecificSalesPayment d 1 0 [99] fun _ => true).1.db =
      exDbPaid :=
  ⟨(c5_amended_targeted_validation exDbPaid 1 0 ⟨1, 0⟩ [99] 50
      (fun _ => true) 10 3).1
      (by norm_num [selectedSales, exDbPaid]),
   (c5_amended_targeted_validation exDbPaid 1 0 ⟨1, 0⟩ [99] 50
      (fun _ => true) 10 3).2.1
      (by norm_num [selectedSales, exDbPaid]),
   (c5_amended_targeted_validation exDbPaid 1 0 ⟨1, 0⟩ [1] 50
      (fun _ => true) 10 3).2.2.1
      (by norm_num [selectedSales, exDbPaid])
      ⟨⟨1, some 1, 100, 0, .paid, 0⟩,
        by norm_num [selectedSales, exDbPaid], rfl⟩,
   (c5_amended_targeted_validation exDbPaid 1 0 ⟨1, 0⟩ [99] 50
      (fun _ => true) 10 3).2.2.2
      (by norm_num [selectedSales, exDbPaid])⟩

end POS
